import Mathlib

/-!
Verification development for the DTDP job-orchestration core (`src/app.py`,
`src/blast_filter.py`).  The Python code is shallowly embedded: the in-memory
job registry `active_jobs`, the per-job JSON record files and the WebSocket
event stream become explicit state (`ServerState`); each mutating operation of
the code becomes a pure function on that state; the background coordinator
threads (`run_pipeline_step`, `run_full_pipeline_thread`) become generators of
the sequence of `update_job` / `add_job_log` calls they issue, parameterised by
the externally observed data (tool exit code, tool output lines, result-file
availability, output-file sizes).  Timestamps are modelled as natural numbers;
the float arithmetic of the BLAST size heuristic is modelled by exact integer
floor division.
-/

namespace DTDP

/-- One entry of a job's `logs` list, as appended by `add_job_log` in
`app.py` (a dict with `timestamp`, `level`, `message`). -/
structure LogEntry where
  timestamp : Nat
  level : String
  message : String
deriving Repr, DecidableEq

/-- The `results` field of a job: `run_pipeline_step` stores one stage summary
(`get_step_results(database, project)`), `run_full_pipeline_thread` stores a
dict mapping stage name to stage summary.  Stage summaries are opaque here
(the biological content is out of scope), modelled as strings. -/
inductive Results where
  | single (summary : String)
  | byStage (entries : List (String × String))
deriving Repr, DecidableEq

/-- The live `subprocess.Popen` handle stored under the job's `process` key.
`poll` is `some code` once the process has exited (Python `poll()` non-None),
`none` while it is still running. -/
structure Proc where
  pid : Nat
  poll : Option Int
deriving Repr, DecidableEq

/-- A job record, with the fields of the dict built by `create_job` in
`app.py`.  The derived display string `runtime` is omitted; `runtime_seconds`
is kept.  Statuses are the literal strings used by the code:
`"queued" | "running" | "completed" | "failed" | "cancelled"`. -/
structure Job where
  id : String
  type : String
  project : String
  status : String
  progress : Int
  created_at : Nat
  started_at : Option Nat
  ended_at : Option Nat
  runtime_seconds : Int
  current_step : Option String
  logs : List LogEntry
  results : Option Results
  process : Option Proc
deriving Repr, DecidableEq

/-- A partial-field update dict, as passed to `update_job(job_id, updates)`.
`none` means the key is absent from the dict.  For `results` the stored value
is itself optional, because `run_pipeline_step` writes
`{'results': get_step_results(...)}`, which may be `None`. -/
structure JobUpdates where
  status : Option String := none
  progress : Option Int := none
  started_at : Option Nat := none
  ended_at : Option Nat := none
  current_step : Option String := none
  results : Option (Option Results) := none
deriving Repr, DecidableEq

/-- Apply an update dict to a job (`active_jobs[job_id].update(updates)`),
including `update_job`'s runtime recomputation: when the dict contains
`ended_at` and the job has a `started_at`, `runtime_seconds` is recomputed as
the difference. -/
def Job.applyUpdates (j : Job) (u : JobUpdates) : Job :=
  let j1 : Job :=
    { j with
      status := u.status.getD j.status
      progress := u.progress.getD j.progress
      started_at := match u.started_at with | some t => some t | none => j.started_at
      ended_at := match u.ended_at with | some t => some t | none => j.ended_at
      current_step := match u.current_step with | some c => some c | none => j.current_step
      results := u.results.getD j.results }
  match u.ended_at, j1.started_at with
  | some e, some s => { j1 with runtime_seconds := (e : Int) - (s : Int) }
  | _, _ => j1

/-- A WebSocket event (`socketio.emit`): `job_update` from `update_job`,
`job_log` from `add_job_log`.  Payload contents are not modelled. -/
structure Event where
  job_id : String
  kind : String
deriving Repr, DecidableEq

/-- The server's mutable state: the global `active_jobs` dict, the per-job
JSON files under `JOBS_DIR`, and the stream of emitted WebSocket events.
Both dicts are modelled as association lists with first-match lookup. -/
structure ServerState where
  active_jobs : List (String × Job)
  job_files : List (String × Job)
  events : List Event
deriving Repr, DecidableEq

/-- Dict lookup `active_jobs.get(job_id)`. -/
def getJob (s : ServerState) (job_id : String) : Option Job :=
  match s.active_jobs.find? (fun p => p.1 == job_id) with
  | some p => some p.2
  | none => none

/-- Dict assignment `d[key] = value`: replace the entry if the key is present,
append it otherwise. -/
def upsert (l : List (String × Job)) (key : String) (j : Job) : List (String × Job) :=
  if l.any (fun p => p.1 == key) then l.map (fun p => if p.1 == key then (p.1, j) else p)
  else l ++ [(key, j)]

/-- The serialisable projection written to the job's JSON file: every field
except the live `process` handle (and the `timeout_timer`, which is not a
`Job` field in this model). -/
def Job.persisted (j : Job) : Job := { j with process := none }

/-- `update_job(job_id, updates)` from `app.py`: if the job id is present in
`active_jobs`, merge the updates (recomputing runtime when `ended_at` is
among them), overwrite the job's JSON file with the serialisable fields, and
emit a `job_update` event.  If the id is absent, nothing happens at all. -/
def update_job (s : ServerState) (job_id : String) (u : JobUpdates) : ServerState :=
  match getJob s job_id with
  | none => s
  | some j =>
      let j2 := j.applyUpdates u
      { active_jobs := upsert s.active_jobs job_id j2
        job_files := upsert s.job_files job_id j2.persisted
        events := s.events ++ [⟨job_id, "job_update"⟩] }

/-- `add_job_log(job_id, message, level)` from `app.py`: if the job id is
present, append a log entry to the in-memory job and emit a `job_log` event
(the file is not rewritten).  If the id is absent, nothing happens. -/
def add_job_log (s : ServerState) (job_id : String) (message : String)
    (level : String) (now : Nat) : ServerState :=
  match getJob s job_id with
  | none => s
  | some j =>
      let j2 : Job := { j with logs := j.logs ++ [⟨now, level, message⟩] }
      { active_jobs := upsert s.active_jobs job_id j2
        job_files := s.job_files
        events := s.events ++ [⟨job_id, "job_log"⟩] }

/-- The display `type` string computed in `create_job`. -/
def displayType (job_type : String) : String :=
  if job_type == "pipeline_all" then "Full Pipeline"
  else if job_type == "alignment" then "Alignment"
  else job_type

/-- The fresh job dict built by `create_job`: status `queued`, progress 0,
`created_at` and `started_at` both set to the current time, `ended_at` unset,
no results, no process. -/
def newJob (job_id job_type project : String) (now : Nat) : Job :=
  { id := job_id
    type := displayType job_type
    project := project
    status := "queued"
    progress := 0
    created_at := now
    started_at := some now
    ended_at := none
    runtime_seconds := 0
    current_step := none
    logs := []
    results := none
    process := none }

/-- `create_job(job_id, job_type, config)` from `app.py`: build the fresh job,
write its JSON file (without the `process` key) and register it in
`active_jobs`. -/
def create_job (s : ServerState) (job_id job_type project : String) (now : Nat) : ServerState :=
  let j := newJob job_id job_type project now
  { active_jobs := upsert s.active_jobs job_id j
    job_files := upsert s.job_files job_id j.persisted
    events := s.events }

/-- The JSON response of an API route (only the fields the claims need). -/
structure ApiResponse where
  success : Bool
  message : String
deriving Repr, DecidableEq

/-- The update dict issued by `end_job` (app.py lines 2480-2485): status
`failed`, progress reset to 0, step label `Job manually stopped by user`,
`ended_at` stamped. -/
def endJobUpdate (now : Nat) : JobUpdates :=
  { status := some "failed"
    progress := some 0
    current_step := some "Job manually stopped by user"
    ended_at := some now }

/-- `end_job(job_id)` (route `/api/end_job/<job_id>`, app.py lines
2420-2500): unknown job ids and jobs whose status is not `running`/`queued`
are rejected without any state change; otherwise the process is terminated
(termination itself does not mutate the job record) and the job is updated
with `endJobUpdate`. -/
def end_job (s : ServerState) (job_id : String) (now : Nat) : ServerState × ApiResponse :=
  match getJob s job_id with
  | none => (s, ⟨false, "Job not found"⟩)
  | some j =>
      if j.status != "running" && j.status != "queued" then
        (s, ⟨false, "Job is not running (status: " ++ j.status ++ ")"⟩)
      else
        (update_job s job_id (endJobUpdate now), ⟨true, "Job stopped successfully"⟩)

/-- The update dict issued by `recover_stuck_jobs` for a reclaimed job. -/
def recoverUpdate (now : Nat) : JobUpdates :=
  { status := some "failed"
    ended_at := some now
    current_step := some "Process ended unexpectedly" }

/-- The body of the loop of `recover_stuck_jobs` (app.py lines 2299-2319) for
one job id: a `running` job whose stored `process` object exists and whose
`poll()` is non-None is marked `failed` with step label
`Process ended unexpectedly`; every other job is left untouched.  Note the
guard `if 'process' in job and job['process']`: a running job with no stored
process object is skipped. -/
def recoverOne (s : ServerState) (job_id : String) (now : Nat) : ServerState :=
  match getJob s job_id with
  | none => s
  | some j =>
      if j.status == "running" then
        match j.process with
        | some p =>
            if p.poll.isSome then update_job s job_id (recoverUpdate now)
            else s
        | none => s
      else s

/-- `recover_stuck_jobs` (route `/api/recover_jobs`): iterate over a snapshot
of the registry's job ids, applying `recoverOne` to each. -/
def recover_stuck_jobs (s : ServerState) (now : Nat) : ServerState :=
  (s.active_jobs.map Prod.fst).foldl (fun st job_id => recoverOne st job_id now) s

/-- The inputs of `get_cache_key` in `blast_filter.py`: the BLAST raw-hit
source file's path and last-modified time and the three numeric filtering
thresholds.  Each component is kept in its rendered form (the string it
contributes to the Python f-string `key_str`); distinct numeric values render
to distinct strings. -/
structure CacheKeyInput where
  blast_file : String
  blast_mtime : String
  identity : String
  coverage : String
  evalue : String
deriving Repr, DecidableEq

/-- `get_cache_key`'s `key_str`:
`f"{blast_file}_{blast_mtime}_{identity}_{coverage}_{evalue}"`.  The code
feeds this through `hashlib.md5(...).hexdigest()`; the hash is modelled as
the identity encoding, since the code relies on its collision-freeness. -/
def get_cache_key (k : CacheKeyInput) : String :=
  k.blast_file ++ "_" ++ k.blast_mtime ++ "_" ++ k.identity ++ "_" ++ k.coverage ++ "_" ++ k.evalue

/-- The dict pickled by `save_cached_results`: the stored key fingerprint, the
payload (`filtered_ids`, `hit_details`, `blast_hits`) and an informational
timestamp. -/
structure CacheData where
  cache_key : String
  filtered_ids : List String
  hit_details : List String
  blast_hits : Nat
  timestamp : String
deriving Repr, DecidableEq

/-- `save_cached_results(cache_file, blast_file, identity, coverage, evalue,
filtered_ids, hit_details, blast_hits)`: the cache file's new contents. -/
def save_cached_results (k : CacheKeyInput) (filtered_ids hit_details : List String)
    (blast_hits : Nat) (timestamp : String) : Option CacheData :=
  some
    { cache_key := get_cache_key k
      filtered_ids := filtered_ids
      hit_details := hit_details
      blast_hits := blast_hits
      timestamp := timestamp }

/-- `get_cached_results(cache_file, blast_file, identity, coverage, evalue)`:
a missing cache file is a miss; otherwise the pickled dict is returned only
when its stored `cache_key` equals the fingerprint recomputed from the
current inputs, and any mismatch is a miss. -/
def get_cached_results (cache_file : Option CacheData) (k : CacheKeyInput) : Option CacheData :=
  match cache_file with
  | none => none
  | some cached => if cached.cache_key == get_cache_key k then some cached else none

/-- One observable side effect of a coordinator thread on its job record:
either an `update_job` call with an update dict, or an `add_job_log` call. -/
inductive StepAction where
  | update (u : JobUpdates)
  | log (message level : String)
deriving Repr, DecidableEq

/-- Apply one coordinator action directly to the job record (the effect
`update_job` / `add_job_log` has on the `active_jobs` entry of the job the
coordinator owns). -/
def applyActionJob (now : Nat) (j : Job) : StepAction → Job
  | .update u => j.applyUpdates u
  | .log m lvl => { j with logs := j.logs ++ [⟨now, lvl, m⟩] }

/-- Apply a sequence of coordinator actions to a job record. -/
def runActions (now : Nat) (j : Job) (acts : List StepAction) : Job :=
  acts.foldl (applyActionJob now) j

/-- The fixed stage order of `run_full_pipeline_thread`. -/
def databases : List String := ["human", "deg", "vfdb", "eskape"]

/-- The `progress_map` dict of `run_full_pipeline_thread`
(`{'human': 10, 'deg': 35, 'vfdb': 60, 'eskape': 85}`; the dict has no other
keys and is only consulted for the four stage names). -/
def progress_map (db : String) : Int :=
  if db == "human" then 10
  else if db == "deg" then 35
  else if db == "vfdb" then 60
  else if db == "eskape" then 85
  else 0

/-- What the environment hands one stage invocation inside
`run_full_pipeline_thread`: the stripped stdout lines streamed from the
subprocess, its exit code, and the value of `get_step_results(db, project)`
afterwards (`none` models a falsy/empty result dict: the expected output
artifacts were not found). -/
structure StageEnv where
  lines : List String
  returncode : Int
  step_results : Option String
deriving Repr, DecidableEq

/-- The actions issued at the top of the loop body of
`run_full_pipeline_thread` for one stage: the `running` update with the new
step label and the stage's mapped progress, the banner log and the command
log, then one log per nonempty output line. -/
def stageStartActions (db : String) (lines : List String) : List StepAction :=
  [ .update { status := some "running"
              current_step := some ("Starting " ++ db ++ " filter...")
              progress := some (progress_map db) }
  , .log ("--- Starting " ++ db.toUpper ++ " Filter ---") "info"
  , .log ("Command: blast_filter.py " ++ db) "info" ]
  ++ (lines.filter (fun l => l != "")).map (fun l => .log l "info")

/-- The loop of `run_full_pipeline_thread` (app.py lines 388-466) followed by
its epilogue (lines 469-476), as the sequence of job updates and log appends
it issues.  `acc` is the accumulated `step_results` dict.  A nonzero exit
marks the job `failed` (`Failed during {db} filter.`) and stops; a zero exit
with no locatable result artifacts raises, and the handler at lines 478-484
marks the job `failed` (`Error: {db} step completed but no output files were
found.`); otherwise the merged results dict is written back immediately and
the next stage runs.  Only after every stage succeeds is the `completed`
update issued.  (The cooperative-cancellation branch of the streaming loop is
not taken in this single-writer model.) -/
def runStagesActions (env : String → StageEnv) (now : Nat) :
    List String → List (String × String) → List StepAction
  | [], acc =>
      [ .update { status := some "completed"
                  progress := some 100
                  ended_at := some now
                  current_step := some "All pipeline steps completed successfully."
                  results := some (some (.byStage acc)) }
      , .log "All pipeline steps completed." "success" ]
  | db :: rest, acc =>
      stageStartActions db (env db).lines ++
      (if (env db).returncode != 0 then
        [ .update { status := some "failed"
                    ended_at := some now
                    current_step := some ("Failed during " ++ db ++ " filter.") }
        , .log ("Pipeline stopped: " ++ db ++ " filter failed.") "error" ]
      else
        match (env db).step_results with
        | none =>
            [ .update { status := some "failed"
                        ended_at := some now
                        current_step := some ("Error: " ++ db ++ " step completed but no output files were found.") }
            , .log ("Fatal Error: " ++ db ++ " step completed but no output files were found.") "error" ]
        | some r =>
            [ .update { results := some (some (.byStage (acc ++ [(db, r)]))) }
            , .log ("--- " ++ db.toUpper ++ " Filter Completed Successfully ---") "success" ]
            ++ runStagesActions env now rest (acc ++ [(db, r)]))

/-- The full action sequence of `run_full_pipeline_thread`. -/
def run_full_pipeline_actions (env : String → StageEnv) (now : Nat) : List StepAction :=
  runStagesActions env now databases []

/-- Whether a character sequence occurs inside another: some suffix of the
haystack starts with the needle. -/
def containsSeq (needle : List Char) : List Char → Bool
  | [] => needle.isEmpty
  | c :: rest => needle.isPrefixOf (c :: rest) || containsSeq needle rest

/-- Python's substring test `needle in hay`, on the character sequences of
the two strings. -/
def strContains (hay needle : String) : Bool :=
  containsSeq needle.data hay.data

/-- The milestone if-chain of `run_pipeline_step`'s streaming loop (app.py
lines 279-292): a matched line yields the checkpoint progress plus whether
the branch sets (`STEP 4`/BLAST) or clears (`STEP 5`/Filtering) the
`blast_started` flag. -/
def milestone (line : String) : Option (Int × Bool × Bool) :=
  if strContains line "STEP 1" || strContains line "Setup" then some (10, false, false)
  else if strContains line "STEP 2" || strContains line "Input" then some (15, false, false)
  else if strContains line "STEP 3" || strContains line "Analysis" then some (20, false, false)
  else if strContains line "STEP 4" || strContains line "BLAST" || strContains line "Starting BLAST" then
    some (25, true, false)
  else if strContains line "STEP 5" || strContains line "Filtering" then some (90, false, true)
  else if strContains line "STEP 6" then some (95, false, false)
  else none

/-- The streaming loop of `run_pipeline_step` (app.py lines 267-309), as the
actions it issues.  `size i` is the size in bytes of the growing
`{database}_blast.txt` output file when the `i`-th line is handled (`none`
when the file does not exist).  Each nonempty line is logged; a milestone
match updates progress and step label; while `blast_started` is set and the
output file has grown, progress is estimated as
`min(85, 25 + int(size_mb * 3))` (float arithmetic modelled as exact integer
floor).  (The cancellation check at the top of the loop is not taken in this
single-writer model.)  `milestoneActs` is the update a milestone match
issues, `nextBlast` the flag transition, `sizeActs` the size estimate, and
`lineActions` the whole loop. -/
def milestoneActs (line : String) : List StepAction :=
  match milestone line with
  | some (p, _, _) => [.update { progress := some p, current_step := some line }]
  | none => []

/-- The `blast_started` flag after handling one line: set by the `STEP 4`
branch, cleared by the `STEP 5` branch, otherwise unchanged. -/
def nextBlast (line : String) (blast_started : Bool) : Bool :=
  match milestone line with
  | some (_, sb, cb) => if sb then true else if cb then false else blast_started
  | none => blast_started

/-- The file-size progress estimate of one iteration: while `blast_started`
holds and the output file exists and has grown, write
`min(85, 25 + int(size_mb * 3))` and remember the new size. -/
def sizeActs : Bool → Option Nat → Nat → List StepAction × Nat
  | false, _, last_blast_size => ([], last_blast_size)
  | true, none, last_blast_size => ([], last_blast_size)
  | true, some sz, last_blast_size =>
      if last_blast_size < sz then
        ([.update { progress := some (min 85 (25 + (Int.ofNat ((3 * sz) / 1048576))))
                    current_step := some "BLAST running..." }], sz)
      else ([], last_blast_size)

def lineActions (size : Nat → Option Nat) :
    List String → Nat → Bool → Nat → List StepAction
  | [], _, _, _ => []
  | line :: rest, i, blast_started, last_blast_size =>
      if line == "" then lineActions size rest (i + 1) blast_started last_blast_size
      else
        [.log line "info"] ++ milestoneActs line
          ++ (sizeActs (nextBlast line blast_started) (size i) last_blast_size).1
          ++ lineActions size rest (i + 1) (nextBlast line blast_started)
              (sizeActs (nextBlast line blast_started) (size i) last_blast_size).2

/-- The body of `run_pipeline_step.run_step` (app.py lines 194-339) for a
normal (exception-free) execution, as the sequence of job updates and log
appends it issues: the initial `running` update, the streaming loop, then on
exit code 0 the `completed` update followed by a separate update attaching
`get_step_results(database, project)` (possibly `None`), and on a nonzero
exit the `failed` update. -/
def run_step_actions (db : String) (lines : List String) (size : Nat → Option Nat)
    (returncode : Int) (step_results : Option String) (now : Nat) : List StepAction :=
  [ .update { status := some "running"
              started_at := some now
              current_step := some ("Starting " ++ db ++ " filter")
              progress := some 5 }
  , .log ("Starting " ++ db ++ " filter for project...") "info"
  , .log ("Command: blast_filter.py " ++ db) "info" ]
  ++ lineActions size lines 0 false 0
  ++ (if returncode == 0 then
        [ .update { status := some "completed"
                    progress := some 100
                    ended_at := some now
                    current_step := some "Completed successfully" }
        , .log (db ++ " filter completed successfully!") "success"
        , .update { results := some (step_results.map Results.single) } ]
      else
        [ .update { status := some "failed"
                    ended_at := some now
                    current_step := some "Failed" }
        , .log (db ++ " filter failed!") "error" ])

/-- The process-supervision events of one `run_pipeline_step.run_step`
invocation, in program order: process spawn, timer operations, storing the
handle, the streaming reads, and the final `process.wait()`. -/
inductive ProcEvent where
  | spawn
  | timerArm (seconds : Nat)
  | timerCancel
  | storeProcess
  | readLine (line : String)
  | procWait
deriving Repr, DecidableEq

/-- The supervision trace of `run_step` as written (app.py lines 227-311):
the subprocess is spawned (line 227), `kill_process_timeout` arms the 7200 s
timer (line 252), the block at lines 255-257 — despite its comment saying it
belongs after the process completes — cancels the timer immediately, the
handle is stored (line 259), the output is streamed (line 267) and only then
does `process.wait()` run (line 311). -/
def run_step_proc_trace (lines : List String) : List ProcEvent :=
  [ProcEvent.spawn, ProcEvent.timerArm 7200, ProcEvent.timerCancel, ProcEvent.storeProcess]
    ++ lines.map ProcEvent.readLine ++ [ProcEvent.procWait]

/-- Whether the timeout timer is armed after a sequence of supervision
events. -/
def timerArmed (evs : List ProcEvent) : Bool :=
  evs.foldl
    (fun armed e =>
      match e with
      | ProcEvent.timerArm _ => true
      | ProcEvent.timerCancel => false
      | _ => armed)
    false

/-- What the armed timer would do on expiry (`timeout_handler` inside
`kill_process_timeout`, app.py lines 237-244): if the process has not exited,
kill its process group, log a timeout error and mark the job `failed`. -/
def timeout_handler (s : ServerState) (job_id : String) (p : Proc)
    (timeout_seconds now : Nat) : ServerState :=
  if p.poll.isSome then s
  else
    let s1 := add_job_log s job_id
      ("Process terminated after " ++ toString timeout_seconds ++ "s timeout") "error" now
    update_job s1 job_id { status := some "failed", ended_at := some now }

/-- One file in `JOBS_DIR` as seen by `load_jobs`: either its contents fail
`json.load` (raising `JSONDecodeError`), or they parse to a job record.
Records the system itself persisted always carry an `id` (both `create_job`
and `update_job` serialise the full job dict). -/
inductive RecordFile where
  | corrupt (name : String)
  | wellFormed (name : String) (job : Job)
deriving DecidableEq

/-- The results back-fill inside `load_jobs` (app.py lines 1050-1074): a
`completed` record with no results gets them reconstructed from the on-disk
step outputs — `getStep db project` models `get_step_results(db, project)`.
Falsy (empty) reconstructions leave the record unchanged. -/
def backfill (getStep : String → String → Option String) (j : Job) : Job :=
  if j.status == "completed" && j.results == none then
    if j.type != "" && j.type != "Full Pipeline" && j.project != "" then
      match getStep j.type j.project with
      | some r => { j with results := some (.single r) }
      | none => j
    else if j.type == "Full Pipeline" && j.project != "" then
      let step_results := databases.filterMap (fun db => (getStep db j.project).map (fun r => (db, r)))
      if step_results.isEmpty then j else { j with results := some (.byStage step_results) }
    else j
  else j

/-- `load_jobs` (app.py lines 1044-1083): fold over the record files; a file
whose contents are not valid JSON is renamed with a `.corrupted` suffix and
skipped, a parsed record is (back-filled and) registered under its id.  The
function returns the rebuilt `active_jobs` registry and the list of
quarantined file names; its totality models "never crashes startup".
`loadStep` is the loop body for one record file. -/
def loadStep (getStep : String → String → Option String)
    (st : List (String × Job) × List String) (f : RecordFile) :
    List (String × Job) × List String :=
  match f with
  | .corrupt name => (st.1, st.2 ++ [name ++ ".corrupted"])
  | .wellFormed _ j => (upsert st.1 j.id (backfill getStep j), st.2)

/-- The fold of `load_jobs` over every record file, from an empty registry. -/
def load_jobs (getStep : String → String → Option String) (files : List RecordFile) :
    List (String × Job) × List String :=
  files.foldl (loadStep getStep) ([], [])

/-- The terminal statuses of the job state machine. -/
def isTerminalStr (st : String) : Bool :=
  st == "completed" || st == "failed" || st == "cancelled"

/-- An action that is an `update_job` call whose dict sets a terminal
status. -/
def isTerminalUpdate : StepAction → Bool
  | .update u => match u.status with | some st => isTerminalStr st | none => false
  | .log _ _ => false

/-- The stage names present in a job's `results` dict (empty for `None` or a
single-stage summary). -/
def resultKeys (j : Job) : List String :=
  match j.results with
  | some (.byStage entries) => entries.map Prod.fst
  | _ => []

/-- A stage invocation fails when its tool exits nonzero or
`get_step_results` finds no output artifacts. -/
def stageFails (env : String → StageEnv) (db : String) : Bool :=
  (env db).returncode != 0 || (env db).step_results == none

/-- Index of the first failing stage in a stage list, if any. -/
def firstFailing (env : String → StageEnv) : List String → Option Nat
  | [] => none
  | db :: rest =>
      if stageFails env db then some 0 else (firstFailing env rest).map (fun i => i + 1)

/-- How many updates in an action sequence set status `running` — one per
stage whose loop body began. -/
def runningCount (acts : List StepAction) : Nat :=
  acts.countP (fun a =>
    match a with
    | .update u => u.status == some "running"
    | _ => false)

/-- The value an update writes to `progress`, if any. -/
def progressOf : StepAction → Option Int
  | .update u => u.progress
  | .log _ _ => none

/-- The successive values written to `progress` by an action sequence. -/
def progressWrites (acts : List StepAction) : List Int :=
  acts.filterMap progressOf

/-- Whether a list of progress values never decreases left to right. -/
def nondecreasing : List Int → Bool
  | a :: b :: rest => if a ≤ b then nondecreasing (b :: rest) else false
  | _ => true

/-- The actions issued strictly after the first terminal-status update. -/
def postTerminal (acts : List StepAction) : List StepAction :=
  (acts.dropWhile (fun a => !isTerminalUpdate a)).drop 1

/-- An action that appends a log line or is an update touching no field
other than `results`. -/
def touchesOnlyResults : StepAction → Bool
  | .log _ _ => true
  | .update u =>
      u.status == none && u.progress == none && u.ended_at == none
        && u.started_at == none && u.current_step == none

/-- An action that only appends a log line. -/
def isLogAction : StepAction → Bool
  | .log _ _ => true
  | .update _ => false

/-- An action that appends a log line or is an update touching only
`progress` and `current_step` — the shape of every action the streaming
loop issues. -/
def progressStepOnly : StepAction → Bool
  | .log _ _ => true
  | .update u =>
      u.status == none && u.ended_at == none && u.started_at == none && u.results == none

/-- An update dict that cannot break `terminal status → ended_at set`: if it
sets a terminal status it also stamps `ended_at`. -/
def updOK (u : JobUpdates) : Bool :=
  match u.status with
  | some st => !isTerminalStr st || u.ended_at.isSome
  | none => true

/-- `updOK` lifted to actions. -/
def actOK : StepAction → Bool
  | .update u => updOK u
  | .log _ _ => true

/-- A pre-terminal action: any status it sets is non-terminal and it does not
stamp `ended_at`. -/
def preOK : StepAction → Bool
  | .update u =>
      (match u.status with | some st => !isTerminalStr st | none => true) && u.ended_at == none
  | .log _ _ => true

/-- A post-terminal action: it sets neither status nor `ended_at`. -/
def postOK : StepAction → Bool
  | .update u => u.status == none && u.ended_at == none
  | .log _ _ => true

/-- A terminal update that stamps `ended_at`. -/
def termOK : StepAction → Bool
  | .update u =>
      (match u.status with | some st => isTerminalStr st | none => false) && u.ended_at.isSome
  | .log _ _ => false

/-- A coordinator trace suffix is well-phased when it consists of
pre-terminal actions followed by one ended-stamping terminal update followed
by post-terminal actions. -/
def wholeTrace : List StepAction → Bool
  | [] => true
  | a :: rest => (preOK a && wholeTrace rest) || (termOK a && rest.all postOK)

/-- States reachable from a coordinator mid-run.  A state pairs the job
record with the suffix of coordinator actions still to be issued.  A `coord`
step lets the coordinator thread issue its next action; an `endJobStep` lets
the `/api/end_job` route fire concurrently from the Flask thread — its guard
(status `running`/`queued`, app.py line 2429) and its update dict are those
of `end_job`.  With `allowEnd := false` the relation describes the
single-writer runs with no concurrent cancellation. -/
inductive Reach (allowEnd : Bool) : Job × List StepAction → Job × List StepAction → Prop where
  | refl (s) : Reach allowEnd s s
  | coord {j : Job} {rest : List StepAction} {t} (now : Nat) (a : StepAction)
      (h : Reach allowEnd (applyActionJob now j a, rest) t) : Reach allowEnd (j, a :: rest) t
  | endJobStep {j : Job} {rest : List StepAction} {t} (now : Nat)
      (hs : j.status = "running" ∨ j.status = "queued") (he : allowEnd = true)
      (h : Reach allowEnd (j.applyUpdates (endJobUpdate now), rest) t) :
      Reach allowEnd (j, rest) t

/-- The successive `progress` values `run_full_pipeline_thread` writes when
run against `env`, one per reached stage, closed by 100 on full success. -/
def pwList (env : String → StageEnv) : List String → List Int
  | [] => [100]
  | db :: rest =>
      if stageFails env db then [progress_map db]
      else progress_map db :: pwList env rest

/-- An empty server (fresh start, no jobs). -/
def emptyServer : ServerState := ⟨[], [], []⟩

/-- Fixture: a freshly created job that has been moved to `running` with
progress 50 — the situation in which a user presses stop. -/
def demoRunning : ServerState :=
  update_job (create_job emptyServer "job_1" "human" "proj" 0) "job_1"
    { status := some "running", progress := some 50 }

/-- The record `demoRunning` holds for `job_1`. -/
def demoRunningJob : Job :=
  { newJob "job_1" "human" "proj" 0 with status := "running", progress := 50 }

/-- Fixture: a `running` job record reloaded from disk — `load_jobs` never
stores a `process` key, so the record has no process object at all. -/
def demoOrphan : ServerState :=
  ⟨[("job_2", { newJob "job_2" "human" "proj" 0 with status := "running", process := none })], [], []⟩

/-- Fixture: a `running` job whose recorded process has already exited
(`poll()` returned 1). -/
def demoDeadJob : Job :=
  { newJob "job_3" "human" "proj" 0 with status := "running", process := some ⟨10, some 1⟩ }

/-- Fixture: a registry holding only `demoDeadJob`. -/
def demoDead : ServerState := ⟨[("job_3", demoDeadJob)], [], []⟩

/-- Fixture: every stage succeeds instantly with no output lines. -/
def envAllOk : String → StageEnv := fun _ => ⟨[], 0, some "ok"⟩

/-- Fixture: the spec's scenario — stage `vfdb` exits nonzero, every other
stage succeeds. -/
def envVfdbFails : String → StageEnv :=
  fun db => if db == "vfdb" then ⟨[], 1, some "ok"⟩ else ⟨[], 0, some "ok"⟩

/-- Fixture: the single-stage success trace of `run_pipeline_step` for stage
`human` with no output lines, a zero exit and a located result summary. -/
def demoStepActs : List StepAction :=
  run_step_actions "human" [] (fun _ => none) 0 (some "summary") 9

/-- Fixture: the full-pipeline trace for `envAllOk`, from which the C8 race
is driven. -/
def demoPipeTrace : List StepAction := run_full_pipeline_actions envAllOk 50

/-- Fixture: the initial job record of the full-pipeline run. -/
def demoPipeJob : Job := newJob "job_1" "pipeline_all" "proj" 0

/-- The job after the `human` stage's block (its `running` update, two logs,
the results attachment and the success log), i.e. between two stages. -/
def demoMidJob : Job := runActions 0 demoPipeJob (demoPipeTrace.take 5)

/-- The job after `/api/end_job` fires in the between-stages window and the
pipeline thread then issues the `deg` stage's `running` update. -/
def demoRaceJob : Job :=
  applyActionJob 0 (demoMidJob.applyUpdates (endJobUpdate 99))
    ((demoPipeTrace.drop 5).headD (.log "" ""))

/-- Fixture: two consecutive stripped output lines every uncached
`blast_filter.py` run actually prints (its lines 677 and 700): the first
matches the `STEP 5`/`Filtering` milestone branch (progress 90), the second
contains `BLAST` and so matches the `STEP 4`/`BLAST` branch (progress 25),
regressing the job's progress mid-run. -/
def demoRegressLines : List String := ["STEP 5: Filtering", "→ Parsing BLAST..."]

/-- Fixture: a cache key (stage `human`, mtime 171, thresholds 30/70/1e-05,
in their rendered forms). -/
def demoKey : CacheKeyInput := ⟨"human_blast.txt", "171", "30", "70", "1e-05"⟩

/-- Fixture: one unreadable record file and one well-formed record file. -/
def demoFiles : List RecordFile :=
  [.corrupt "bad.json", .wellFormed "good.json" (newJob "job_9" "human" "proj" 0)]

theorem applyUpdates_status (j : Job) (u : JobUpdates) :
    (j.applyUpdates u).status = u.status.getD j.status := by
  unfold Job.applyUpdates
  rcases u.ended_at with _ | e <;> rcases u.started_at with _ | t <;>
    rcases hs : j.started_at with _ | s <;> simp [hs]

theorem applyUpdates_progress (j : Job) (u : JobUpdates) :
    (j.applyUpdates u).progress = u.progress.getD j.progress := by
  unfold Job.applyUpdates
  rcases u.ended_at with _ | e <;> rcases u.started_at with _ | t <;>
    rcases hs : j.started_at with _ | s <;> simp [hs]

theorem applyUpdates_ended_at (j : Job) (u : JobUpdates) :
    (j.applyUpdates u).ended_at =
      match u.ended_at with
      | some t => some t
      | none => j.ended_at := by
  unfold Job.applyUpdates
  rcases u.ended_at with _ | e <;> rcases u.started_at with _ | t <;>
    rcases hs : j.started_at with _ | s <;> simp [hs]

theorem applyUpdates_current_step (j : Job) (u : JobUpdates) :
    (j.applyUpdates u).current_step =
      match u.current_step with
      | some c => some c
      | none => j.current_step := by
  unfold Job.applyUpdates
  rcases u.ended_at with _ | e <;> rcases u.started_at with _ | t <;>
    rcases hs : j.started_at with _ | s <;> simp [hs]

theorem applyUpdates_results (j : Job) (u : JobUpdates) :
    (j.applyUpdates u).results = u.results.getD j.results := by
  unfold Job.applyUpdates
  rcases u.ended_at with _ | e <;> rcases u.started_at with _ | t <;>
    rcases hs : j.started_at with _ | s <;> simp [hs]

theorem applyUpdates_logs (j : Job) (u : JobUpdates) :
    (j.applyUpdates u).logs = j.logs := by
  unfold Job.applyUpdates
  rcases u.ended_at with _ | e <;> rcases u.started_at with _ | t <;>
    rcases hs : j.started_at with _ | s <;> simp [hs]

theorem any_of_getJob {s : ServerState} {job_id : String} {j : Job}
    (h : getJob s job_id = some j) :
    s.active_jobs.any (fun p => p.1 == job_id) = true := by
  unfold getJob at h
  rcases hf : s.active_jobs.find? (fun p => p.1 == job_id) with _ | pr
  · rw [hf] at h; exact absurd h (by simp)
  · have hm := List.mem_of_find?_eq_some hf
    have hp := List.find?_some hf
    have hex : ∃ x ∈ s.active_jobs, (x.1 == job_id) = true := ⟨pr, hm, hp⟩
    exact List.any_eq_true.mpr hex

theorem find?_map_replace_self (l : List (String × Job)) (k : String) (j2 : Job) :
    ((l.map (fun p => if (p.1 == k) = true then (p.1, j2) else p)).find?
        (fun p => p.1 == k)).map Prod.snd
      = (l.find? (fun p => p.1 == k)).map (fun _ => j2) := by
  induction l with
  | nil => rfl
  | cons p rest ih =>
      simp only [List.map_cons]
      by_cases hp : (p.1 == k) = true
      · rw [if_pos hp]
        simp [List.find?_cons, hp]
      · rw [if_neg hp]
        have hp2 : (p.1 == k) = false := by simpa using hp
        simp only [List.find?_cons, hp2]
        exact ih

theorem find?_upsert_snd (l : List (String × Job)) (job_id : String) (j2 : Job)
    (h : l.any (fun p => p.1 == job_id) = true) :
    ((upsert l job_id j2).find? (fun p => p.1 == job_id)).map Prod.snd = some j2 := by
  unfold upsert
  rw [if_pos h, find?_map_replace_self]
  rcases hf : l.find? (fun p => p.1 == job_id) with _ | pr
  · obtain ⟨pr2, hm, hp⟩ := List.any_eq_true.mp h
    have hfalse := List.find?_eq_none.mp hf pr2 hm
    rw [hp] at hfalse
    exact absurd hfalse (by simp)
  · rw [hf]; rfl

theorem getJob_update_job_self {s : ServerState} {job_id : String} {j : Job}
    (u : JobUpdates) (h : getJob s job_id = some j) :
    getJob (update_job s job_id u) job_id = some (j.applyUpdates u) := by
  unfold update_job
  rw [h]
  unfold getJob
  have hf := find?_upsert_snd s.active_jobs job_id (j.applyUpdates u) (any_of_getJob h)
  rcases hfind : (upsert s.active_jobs job_id (j.applyUpdates u)).find?
      (fun p => p.1 == job_id) with _ | pr
  · rw [hfind] at hf; exact absurd hf (by simp)
  · have hpr : pr.2 = j.applyUpdates u := by
      rw [hfind] at hf; simpa using hf
    rw [hfind]
    show some pr.2 = some (j.applyUpdates u)
    rw [hpr]

theorem find?_map_replace_other (l : List (String × Job)) (k job_id : String) (j2 : Job)
    (hne : (k == job_id) = false) :
    (l.map (fun p => if (p.1 == k) = true then (p.1, j2) else p)).find?
        (fun p => p.1 == job_id)
      = l.find? (fun p => p.1 == job_id) := by
  induction l with
  | nil => rfl
  | cons p rest ih =>
      simp only [List.map_cons]
      by_cases hp : (p.1 == k) = true
      · have hpk : p.1 = k := by simpa using hp
        have hpid : (p.1 == job_id) = false := by rw [hpk]; exact hne
        rw [if_pos hp]
        simp only [List.find?_cons, hpid]
        exact ih
      · rw [if_neg hp]
        by_cases hq : (p.1 == job_id) = true
        · simp only [List.find?_cons, hq]
        · have hq2 : (p.1 == job_id) = false := by simpa using hq
          simp only [List.find?_cons, hq2]
          exact ih

theorem find?_upsert_other (l : List (String × Job)) (k job_id : String) (j2 : Job)
    (hne : (k == job_id) = false) :
    (upsert l k j2).find? (fun p => p.1 == job_id) = l.find? (fun p => p.1 == job_id) := by
  unfold upsert
  by_cases ha : l.any (fun p => p.1 == k) = true
  · rw [if_pos ha]
    exact find?_map_replace_other l k job_id j2 hne
  · rw [if_neg ha, List.find?_append]
    have h2 : List.find? (fun p => p.1 == job_id) [(k, j2)] = none := by
      simp [List.find?, hne]
    rw [h2, Option.or_none]

theorem getJob_update_job_other {s : ServerState} {k job_id : String}
    (u : JobUpdates) (hne : (k == job_id) = false) :
    getJob (update_job s k u) job_id = getJob s job_id := by
  unfold update_job
  rcases hk : getJob s k with _ | jk
  · rfl
  · unfold getJob
    rw [find?_upsert_other _ _ _ _ hne]

/-- C10: for a job id absent from the in-memory registry, `update_job` and
`add_job_log` are silent no-ops — the registry, the record files and the
event stream are all unchanged, and (being total functions) no error is
raised. -/
theorem C10_absent_id_noop (s : ServerState) (job_id : String) (u : JobUpdates)
    (message level : String) (now : Nat) (h : getJob s job_id = none) :
    update_job s job_id u = s ∧ add_job_log s job_id message level now = s := by
  constructor
  · unfold update_job; rw [h]
  · unfold add_job_log; rw [h]

/-- Witness for C10 on a concrete input: the empty server has no job
`job_x`, and both operations leave it untouched. -/
theorem C10_witness :
    getJob emptyServer "job_x" = none ∧
      (update_job emptyServer "job_x" {} = emptyServer ∧
        add_job_log emptyServer "job_x" "hello" "info" 3 = emptyServer) :=
  ⟨rfl, C10_absent_id_noop emptyServer "job_x" {} "hello" "info" 3 rfl⟩

/-- C1 counterexample: on a concrete registry holding a `running` job,
`end_job` moves the job to `failed`, not to `cancelled` — the claim that the
end_job operation produces the terminal state Cancelled is false on the
code (app.py line 2481 writes `'status': 'failed'`). -/
theorem C1_counterexample :
    (getJob demoRunning "job_1").map Job.status = some "running" ∧
    (getJob (end_job demoRunning "job_1" 7).1 "job_1").map Job.status = some "failed" ∧
    ¬ (getJob (end_job demoRunning "job_1" 7).1 "job_1").map Job.status = some "cancelled" := by
  decide

/-- C1 amended: for every job whose state is `running` or `queued`, `end_job`
moves it to the terminal state `failed` (step label
`Job manually stopped by user`, `ended_at` stamped) — not `cancelled` — and a
second `end_job` once the job is terminal is a no-op: it is rejected with
`success := false` and changes nothing, so the terminal transition is
produced exactly once. -/
theorem C1_end_job_fails_once_then_noop (s : ServerState) (job_id : String) (j : Job)
    (now now2 : Nat) (hj : getJob s job_id = some j)
    (hs : j.status = "running" ∨ j.status = "queued") :
    (end_job s job_id now).2.success = true ∧
    getJob (end_job s job_id now).1 job_id = some (j.applyUpdates (endJobUpdate now)) ∧
    (j.applyUpdates (endJobUpdate now)).status = "failed" ∧
    (j.applyUpdates (endJobUpdate now)).ended_at = some now ∧
    (j.applyUpdates (endJobUpdate now)).current_step = some "Job manually stopped by user" ∧
    end_job (end_job s job_id now).1 job_id now2 =
      ((end_job s job_id now).1, ⟨false, "Job is not running (status: failed)"⟩) := by
  have hguard : (j.status != "running" && j.status != "queued") = false := by
    rcases hs with h1 | h1 <;> rw [h1] <;> rfl
  have hstep : end_job s job_id now =
      (update_job s job_id (endJobUpdate now), ⟨true, "Job stopped successfully"⟩) := by
    unfold end_job
    rw [hj]
    simp [hguard]
  have hj2 : getJob (update_job s job_id (endJobUpdate now)) job_id =
      some (j.applyUpdates (endJobUpdate now)) :=
    getJob_update_job_self (endJobUpdate now) hj
  have hst : (j.applyUpdates (endJobUpdate now)).status = "failed" := by
    rw [applyUpdates_status]; rfl
  refine ⟨by rw [hstep], by rw [hstep]; exact hj2, hst, ?_, ?_, ?_⟩
  · rw [applyUpdates_ended_at]; rfl
  · rw [applyUpdates_current_step]; rfl
  · rw [hstep]
    unfold end_job
    simp only [hj2, hst]
    rfl

/-- Witness for C1 amended at a concrete input: stopping the concrete
running job yields `failed`, and the second stop is rejected leaving the
state unchanged. -/
theorem C1_witness :
    (getJob (end_job demoRunning "job_1" 7).1 "job_1").map Job.status = some "failed" ∧
    (end_job (end_job demoRunning "job_1" 7).1 "job_1" 8).1 = (end_job demoRunning "job_1" 7).1 := by
  have h := C1_end_job_fails_once_then_noop demoRunning "job_1" demoRunningJob 7 8
    (by decide) (Or.inl rfl)
  constructor
  · rw [h.2.1]
    simp [h.2.2.1]
  · rw [h.2.2.2.2.2]

theorem getJob_recoverOne_other {st : ServerState} {k job_id : String} (now : Nat)
    (hne : (k == job_id) = false) :
    getJob (recoverOne st k now) job_id = getJob st job_id := by
  unfold recoverOne
  rcases hk : getJob st k with _ | jk
  · rfl
  · by_cases hr : (jk.status == "running") = true
    · rcases hpp : jk.process with _ | p
      · simp [hr, hpp]
      · by_cases hpoll : p.poll.isSome = true
        · simp only [hr, hpp, hpoll, if_pos]
          exact getJob_update_job_other _ hne
        · simp [hr, hpp, hpoll]
    · have hr2 : (jk.status == "running") = false := by simpa using hr
      simp [hr2]

theorem recoverOne_self_hit {st : ServerState} {job_id : String} {j : Job} {p : Proc}
    (now : Nat) (hj : getJob st job_id = some j) (hr : j.status = "running")
    (hp : j.process = some p) (hpoll : p.poll.isSome = true) :
    recoverOne st job_id now = update_job st job_id (recoverUpdate now) := by
  unfold recoverOne
  rw [hj]
  have hr2 : (j.status == "running") = true := by rw [hr]; rfl
  simp [hr2, hp, hpoll]

theorem recoverOne_self_noproc {st : ServerState} {job_id : String} {j : Job}
    (now : Nat) (hj : getJob st job_id = some j) (hp : j.process = none) :
    recoverOne st job_id now = st := by
  unfold recoverOne
  rw [hj]
  by_cases hr : (j.status == "running") = true
  · simp [hr, hp]
  · have hr2 : (j.status == "running") = false := by simpa using hr
    simp [hr2]

theorem recoverOne_self_notRunning {st : ServerState} {job_id : String} {j : Job}
    (now : Nat) (hj : getJob st job_id = some j)
    (hr : (j.status == "running") = false) :
    recoverOne st job_id now = st := by
  unfold recoverOne
  rw [hj]
  simp [hr]

theorem fold_recover_frozen {job_id : String} {j : Job} (now : Nat) :
    ∀ (ids : List String) (st : ServerState), getJob st job_id = some j →
      (j.status == "running") = false →
      getJob (ids.foldl (fun t k => recoverOne t k now) st) job_id = some j := by
  intro ids
  induction ids with
  | nil => intro st hj _; exact hj
  | cons k rest ih =>
      intro st hj hnr
      simp only [List.foldl_cons]
      apply ih _ _ hnr
      by_cases hk : (k == job_id) = true
      · have hkk : k = job_id := by simpa using hk
        subst hkk
        rw [recoverOne_self_notRunning now hj hnr]
        exact hj
      · rw [getJob_recoverOne_other now (by simpa using hk)]
        exact hj

theorem fold_recover_hit {job_id : String} {j : Job} {p : Proc} (now : Nat) :
    ∀ (ids : List String) (st : ServerState), getJob st job_id = some j →
      job_id ∈ ids → j.status = "running" → j.process = some p → p.poll.isSome = true →
      getJob (ids.foldl (fun t k => recoverOne t k now) st) job_id =
        some (j.applyUpdates (recoverUpdate now)) := by
  intro ids
  induction ids with
  | nil => intro st _ hmem; cases hmem
  | cons k rest ih =>
      intro st hj hmem hr hp hpoll
      simp only [List.foldl_cons]
      by_cases hk : k = job_id
      · subst hk
        rw [recoverOne_self_hit now hj hr hp hpoll]
        have h1 := getJob_update_job_self (recoverUpdate now) hj
        have hnr : ((j.applyUpdates (recoverUpdate now)).status == "running") = false := by
          rw [applyUpdates_status]; rfl
        exact fold_recover_frozen now rest _ h1 hnr
      · have h2 : getJob (recoverOne st k now) job_id = some j := by
          rw [getJob_recoverOne_other now (by simpa using hk)]; exact hj
        rcases List.mem_cons.mp hmem with he | hmem2
        · exact absurd he.symm hk
        · exact ih _ h2 hmem2 hr hp hpoll

theorem fold_recover_noproc {job_id : String} {j : Job} (now : Nat) :
    ∀ (ids : List String) (st : ServerState), getJob st job_id = some j →
      j.process = none →
      getJob (ids.foldl (fun t k => recoverOne t k now) st) job_id = some j := by
  intro ids
  induction ids with
  | nil => intro st hj _; exact hj
  | cons k rest ih =>
      intro st hj hp
      simp only [List.foldl_cons]
      apply ih _ _ hp
      by_cases hk : (k == job_id) = true
      · have hkk : k = job_id := by simpa using hk
        subst hkk
        rw [recoverOne_self_noproc now hj hp]
        exact hj
      · rw [getJob_recoverOne_other now (by simpa using hk)]
        exact hj

theorem mem_ids_of_getJob {s : ServerState} {job_id : String} {j : Job}
    (h : getJob s job_id = some j) : job_id ∈ s.active_jobs.map Prod.fst := by
  unfold getJob at h
  rcases hf : s.active_jobs.find? (fun p => p.1 == job_id) with _ | pr
  · rw [hf] at h; exact absurd h (by simp)
  · have hm := List.mem_of_find?_eq_some hf
    have hp : pr.1 = job_id := by simpa using List.find?_some hf
    exact List.mem_map.mpr ⟨pr, hm, hp⟩

/-- C3 counterexample: a `running` job reloaded from disk carries no process
object (`load_jobs` never persists one), and `recover_stuck_jobs` — whose
guard requires `job['process']` to be present and truthy — leaves it
`running` instead of reclassifying it `failed`, contradicting the claim that
such jobs are transitioned to Failed. -/
theorem C3_counterexample :
    (getJob demoOrphan "job_2").map Job.status = some "running" ∧
    (getJob demoOrphan "job_2").map Job.process = some none ∧
    (getJob (recover_stuck_jobs demoOrphan 5) "job_2").map Job.status = some "running" ∧
    ¬ (getJob (recover_stuck_jobs demoOrphan 5) "job_2").map Job.status = some "failed" := by
  decide

/-- C3 amended: `recover_stuck_jobs` transitions to `failed` (step label
`Process ended unexpectedly`, `ended_at` stamped) exactly those `running`
jobs that hold a recorded process object whose `poll()` shows it exited; a
`running` job with no recorded process — in particular any job reloaded at
startup — is left `running`. -/
theorem C3_recover_only_with_process (s : ServerState) (job_id : String) (j : Job)
    (now : Nat) (hj : getJob s job_id = some j) (hr : j.status = "running") :
    (∀ p, j.process = some p → p.poll.isSome = true →
      getJob (recover_stuck_jobs s now) job_id = some (j.applyUpdates (recoverUpdate now)) ∧
      (j.applyUpdates (recoverUpdate now)).status = "failed" ∧
      (j.applyUpdates (recoverUpdate now)).current_step = some "Process ended unexpectedly" ∧
      (j.applyUpdates (recoverUpdate now)).ended_at = some now) ∧
    (j.process = none → getJob (recover_stuck_jobs s now) job_id = some j) := by
  constructor
  · intro p hp hpoll
    refine ⟨?_, ?_, ?_, ?_⟩
    · exact fold_recover_hit now _ s hj (mem_ids_of_getJob hj) hr hp hpoll
    · rw [applyUpdates_status]; rfl
    · rw [applyUpdates_current_step]; rfl
    · rw [applyUpdates_ended_at]; rfl
  · intro hp
    exact fold_recover_noproc now _ s hj hp

/-- Witness for C3 amended at a concrete input: the dead-process job is
reclassified `failed` with the expected step label. -/
theorem C3_witness :
    (getJob (recover_stuck_jobs demoDead 5) "job_3").map Job.status = some "failed" ∧
    (getJob (recover_stuck_jobs demoDead 5) "job_3").map Job.current_step =
      some (some "Process ended unexpectedly") := by
  have h := (C3_recover_only_with_process demoDead "job_3" demoDeadJob 5
    (by decide) rfl).1 ⟨10, some 1⟩ rfl rfl
  constructor
  · rw [h.1]; simp [h.2.1]
  · rw [h.1]; simp [h.2.2.1]

theorem timer_fold_no_arm (l : List ProcEvent) (h : ∀ k, ProcEvent.timerArm k ∉ l) :
    timerArmed l = false := by
  induction l with
  | nil => rfl
  | cons e rest ih =>
      have h2 : ∀ k, ProcEvent.timerArm k ∉ rest := fun k hk => h k (List.mem_cons_of_mem _ hk)
      cases e with
      | timerArm k => exact absurd (List.mem_cons_self _ _) (h k)
      | spawn => exact ih h2
      | timerCancel => exact ih h2
      | storeProcess => exact ih h2
      | readLine line => exact ih h2
      | procWait => exact ih h2

theorem no_arm_in_stream (lines : List String) (k : Nat) :
    ProcEvent.timerArm k ∉ (lines.map ProcEvent.readLine ++ [ProcEvent.procWait]) := by
  intro hmem
  rcases List.mem_append.mp hmem with hin | hin
  · obtain ⟨l2, _, he⟩ := List.mem_map.mp hin
    exact absurd he (by simp)
  · simp at hin

/-- C2: in `run_pipeline_step` as written, the 2-hour timeout timer armed by
`kill_process_timeout` (app.py line 252) is cancelled by the block at lines
255-257 immediately — before the first output line is read and before
`process.wait()` — even though the code's own comment says the cancellation
belongs "when process completes".  Hence the timer is disarmed at every
point of the streaming and of the wait (every prefix extending the first
four events), so a process that exceeds the timeout is never terminated by
it: the claim describes the intended behaviour, the code is a slip. -/
theorem C2_timer_cancelled_before_streaming (lines : List String) (n : Nat) :
    (run_step_proc_trace lines).take 4 =
      [ProcEvent.spawn, ProcEvent.timerArm 7200, ProcEvent.timerCancel,
        ProcEvent.storeProcess] ∧
    timerArmed ((run_step_proc_trace lines).take (4 + n)) = false ∧
    timerArmed (run_step_proc_trace lines) = false := by
  have hsplit : run_step_proc_trace lines =
      [ProcEvent.spawn, ProcEvent.timerArm 7200, ProcEvent.timerCancel, ProcEvent.storeProcess]
        ++ (lines.map ProcEvent.readLine ++ [ProcEvent.procWait]) := by
    unfold run_step_proc_trace
    rw [List.append_assoc]
  have hlen : ([ProcEvent.spawn, ProcEvent.timerArm 7200, ProcEvent.timerCancel,
      ProcEvent.storeProcess] : List ProcEvent).length = 4 := rfl
  refine ⟨?_, ?_, ?_⟩
  · rw [hsplit, ← hlen, ← Nat.add_zero ([ProcEvent.spawn, ProcEvent.timerArm 7200,
      ProcEvent.timerCancel, ProcEvent.storeProcess] : List ProcEvent).length,
      List.take_append]
    rfl
  · rw [hsplit, ← hlen, List.take_append]
    unfold timerArmed
    rw [List.foldl_append]
    have harm : ∀ k, ProcEvent.timerArm k ∉
        ((lines.map ProcEvent.readLine ++ [ProcEvent.procWait]).take n) :=
      fun k hk => no_arm_in_stream lines k (List.take_subset _ _ hk)
    exact timer_fold_no_arm _ harm
  · rw [hsplit]
    unfold timerArmed
    rw [List.foldl_append]
    exact timer_fold_no_arm _ (fun k => no_arm_in_stream lines k)

theorem str_eq_of_data {a b : String} (h : a.data = b.data) : a = b := by
  cases a; cases b; exact congrArg String.mk h

theorem cache_key_mtime_eq (k k2 : CacheKeyInput) (hbf : k2.blast_file = k.blast_file)
    (hid : k2.identity = k.identity) (hcov : k2.coverage = k.coverage)
    (hev : k2.evalue = k.evalue) (hk : get_cache_key k2 = get_cache_key k) :
    k2.blast_mtime = k.blast_mtime := by
  have hd := congrArg String.data hk
  simp only [get_cache_key, String.data_append, List.append_assoc, hbf, hid, hcov, hev] at hd
  have h1 := List.append_cancel_left hd
  have h2 := List.append_cancel_left h1
  exact str_eq_of_data (List.append_cancel_right h2)

theorem cache_key_identity_eq (k k2 : CacheKeyInput) (hbf : k2.blast_file = k.blast_file)
    (hmt : k2.blast_mtime = k.blast_mtime) (hcov : k2.coverage = k.coverage)
    (hev : k2.evalue = k.evalue) (hk : get_cache_key k2 = get_cache_key k) :
    k2.identity = k.identity := by
  have hd := congrArg String.data hk
  simp only [get_cache_key, String.data_append, List.append_assoc, hbf, hmt, hcov, hev] at hd
  have h1 := List.append_cancel_left hd
  have h2 := List.append_cancel_left h1
  have h3 := List.append_cancel_left h2
  have h4 := List.append_cancel_left h3
  exact str_eq_of_data (List.append_cancel_right h4)

theorem cache_key_coverage_eq (k k2 : CacheKeyInput) (hbf : k2.blast_file = k.blast_file)
    (hmt : k2.blast_mtime = k.blast_mtime) (hid : k2.identity = k.identity)
    (hev : k2.evalue = k.evalue) (hk : get_cache_key k2 = get_cache_key k) :
    k2.coverage = k.coverage := by
  have hd := congrArg String.data hk
  simp only [get_cache_key, String.data_append, List.append_assoc, hbf, hmt, hid, hev] at hd
  have h1 := List.append_cancel_left hd
  have h2 := List.append_cancel_left h1
  have h3 := List.append_cancel_left h2
  have h4 := List.append_cancel_left h3
  have h5 := List.append_cancel_left h4
  have h6 := List.append_cancel_left h5
  exact str_eq_of_data (List.append_cancel_right h6)

theorem cache_key_evalue_eq (k k2 : CacheKeyInput) (hbf : k2.blast_file = k.blast_file)
    (hmt : k2.blast_mtime = k.blast_mtime) (hid : k2.identity = k.identity)
    (hcov : k2.coverage = k.coverage) (hk : get_cache_key k2 = get_cache_key k) :
    k2.evalue = k.evalue := by
  have hd := congrArg String.data hk
  simp only [get_cache_key, String.data_append, List.append_assoc, hbf, hmt, hid, hcov] at hd
  have h1 := List.append_cancel_left hd
  have h2 := List.append_cancel_left h1
  have h3 := List.append_cancel_left h2
  have h4 := List.append_cancel_left h3
  have h5 := List.append_cancel_left h4
  have h6 := List.append_cancel_left h5
  have h7 := List.append_cancel_left h6
  have h8 := List.append_cancel_left h7
  exact str_eq_of_data h8

theorem cache_miss_of_key_ne {k k2 : CacheKeyInput} (fi hd2 : List String) (bh : Nat)
    (ts : String) (hne : get_cache_key k ≠ get_cache_key k2) :
    get_cached_results (save_cached_results k fi hd2 bh ts) k2 = none := by
  unfold get_cached_results save_cached_results
  have hb : (get_cache_key k == get_cache_key k2) = false := by
    exact beq_eq_false_iff_ne.mpr hne
  simp [hb]

/-- C5: the cache round-trips — `save_cached_results` followed by
`get_cached_results` with all inputs unchanged returns the stored record with
the identical payload — and changing any single input while keeping the
others fixed (the source file's modification time or any of the three
thresholds, each in its rendered decimal form) changes `key_str`, so the
read is a miss. -/
theorem C5_cache_roundtrip_and_invalidation (k k2 : CacheKeyInput)
    (fi hd2 : List String) (bh : Nat) (ts : String) :
    (get_cached_results (save_cached_results k fi hd2 bh ts) k =
      some ⟨get_cache_key k, fi, hd2, bh, ts⟩) ∧
    (k2.blast_file = k.blast_file → k2.identity = k.identity → k2.coverage = k.coverage →
      k2.evalue = k.evalue → k2.blast_mtime ≠ k.blast_mtime →
      get_cached_results (save_cached_results k fi hd2 bh ts) k2 = none) ∧
    (k2.blast_file = k.blast_file → k2.blast_mtime = k.blast_mtime → k2.coverage = k.coverage →
      k2.evalue = k.evalue → k2.identity ≠ k.identity →
      get_cached_results (save_cached_results k fi hd2 bh ts) k2 = none) ∧
    (k2.blast_file = k.blast_file → k2.blast_mtime = k.blast_mtime → k2.identity = k.identity →
      k2.evalue = k.evalue → k2.coverage ≠ k.coverage →
      get_cached_results (save_cached_results k fi hd2 bh ts) k2 = none) ∧
    (k2.blast_file = k.blast_file → k2.blast_mtime = k.blast_mtime → k2.identity = k.identity →
      k2.coverage = k.coverage → k2.evalue ≠ k.evalue →
      get_cached_results (save_cached_results k fi hd2 bh ts) k2 = none) := by
  refine ⟨?_, ?_, ?_, ?_, ?_⟩
  · simp [get_cached_results, save_cached_results]
  · intro h1 h2 h3 h4 hne
    exact cache_miss_of_key_ne fi hd2 bh ts
      (fun he => hne (cache_key_mtime_eq k k2 h1 h2 h3 h4 he.symm))
  · intro h1 h2 h3 h4 hne
    exact cache_miss_of_key_ne fi hd2 bh ts
      (fun he => hne (cache_key_identity_eq k k2 h1 h2 h3 h4 he.symm))
  · intro h1 h2 h3 h4 hne
    exact cache_miss_of_key_ne fi hd2 bh ts
      (fun he => hne (cache_key_coverage_eq k k2 h1 h2 h3 h4 he.symm))
  · intro h1 h2 h3 h4 hne
    exact cache_miss_of_key_ne fi hd2 bh ts
      (fun he => hne (cache_key_evalue_eq k k2 h1 h2 h3 h4 he.symm))

/-- Witness for C5 at a concrete input: the stored payload is returned
unchanged on an identical read, and bumping the modification time alone
makes the read a miss. -/
theorem C5_witness :
    get_cached_results (save_cached_results demoKey ["ida"] ["hit"] 3 "t0") demoKey =
      some ⟨get_cache_key demoKey, ["ida"], ["hit"], 3, "t0"⟩ ∧
    get_cached_results (save_cached_results demoKey ["ida"] ["hit"] 3 "t0")
      { demoKey with blast_mtime := "172" } = none := by
  have h := C5_cache_roundtrip_and_invalidation demoKey
    { demoKey with blast_mtime := "172" } ["ida"] ["hit"] 3 "t0"
  exact ⟨h.1, h.2.1 rfl rfl rfl rfl (by decide)⟩

theorem any_key_map_replace (l : List (String × Job)) (k job_id : String) (j : Job) :
    (l.map (fun p => if (p.1 == k) = true then (p.1, j) else p)).any
        (fun p => p.1 == job_id)
      = l.any (fun p => p.1 == job_id) := by
  induction l with
  | nil => rfl
  | cons p rest ih =>
      simp only [List.map_cons, List.any_cons]
      by_cases hp : (p.1 == k) = true
      · rw [if_pos hp]
        simp only [ih]
      · rw [if_neg hp]
        simp only [ih]

theorem upsert_any_self (l : List (String × Job)) (k : String) (j : Job) :
    (upsert l k j).any (fun p => p.1 == k) = true := by
  unfold upsert
  by_cases ha : l.any (fun p => p.1 == k) = true
  · rw [if_pos ha, any_key_map_replace]
    exact ha
  · rw [if_neg ha]
    simp [List.any_append]

theorem upsert_any_mono (l : List (String × Job)) (k job_id : String) (j : Job)
    (h : l.any (fun p => p.1 == job_id) = true) :
    (upsert l k j).any (fun p => p.1 == job_id) = true := by
  unfold upsert
  by_cases ha : l.any (fun p => p.1 == k) = true
  · rw [if_pos ha, any_key_map_replace]
    exact h
  · rw [if_neg ha]
    simp [List.any_append, h]

theorem upsert_any_elim (l : List (String × Job)) (k job_id : String) (j : Job)
    (h : (upsert l k j).any (fun p => p.1 == job_id) = true) :
    l.any (fun p => p.1 == job_id) = true ∨ job_id = k := by
  unfold upsert at h
  by_cases ha : l.any (fun p => p.1 == k) = true
  · rw [if_pos ha, any_key_map_replace] at h
    exact Or.inl h
  · rw [if_neg ha, List.any_append] at h
    rcases Bool.or_eq_true_iff.mp h with h1 | h1
    · exact Or.inl h1
    · simp only [List.any_cons, List.any_nil, Bool.or_false] at h1
      exact Or.inr (Eq.symm (by simpa using h1))

theorem fold_load_quar_mono (getStep : String → String → Option String) (q : String) :
    ∀ (files : List RecordFile) (acc : List (String × Job) × List String),
      q ∈ acc.2 → q ∈ (files.foldl (loadStep getStep) acc).2 := by
  intro files
  induction files with
  | nil => intro acc h; exact h
  | cons f rest ih =>
      intro acc h
      simp only [List.foldl_cons]
      apply ih
      cases f with
      | corrupt name => exact List.mem_append_left _ h
      | wellFormed name j => exact h

theorem fold_load_quar_of_corrupt (getStep : String → String → Option String) (name : String) :
    ∀ (files : List RecordFile) (acc : List (String × Job) × List String),
      RecordFile.corrupt name ∈ files →
      (name ++ ".corrupted") ∈ (files.foldl (loadStep getStep) acc).2 := by
  intro files
  induction files with
  | nil => intro acc h; cases h
  | cons f rest ih =>
      intro acc hmem
      simp only [List.foldl_cons]
      rcases List.mem_cons.mp hmem with he | hmem2
      · rw [← he]
        apply fold_load_quar_mono
        exact List.mem_append_right _ (List.mem_singleton.mpr rfl)
      · exact ih _ hmem2

theorem fold_load_reg_mono (getStep : String → String → Option String) (job_id : String) :
    ∀ (files : List RecordFile) (acc : List (String × Job) × List String),
      acc.1.any (fun p => p.1 == job_id) = true →
      (files.foldl (loadStep getStep) acc).1.any (fun p => p.1 == job_id) = true := by
  intro files
  induction files with
  | nil => intro acc h; exact h
  | cons f rest ih =>
      intro acc h
      simp only [List.foldl_cons]
      apply ih
      cases f with
      | corrupt name => exact h
      | wellFormed name j => exact upsert_any_mono _ _ _ _ h

theorem fold_load_reg_of_wf (getStep : String → String → Option String)
    (name : String) (j : Job) :
    ∀ (files : List RecordFile) (acc : List (String × Job) × List String),
      RecordFile.wellFormed name j ∈ files →
      (files.foldl (loadStep getStep) acc).1.any (fun p => p.1 == j.id) = true := by
  intro files
  induction files with
  | nil => intro acc h; cases h
  | cons f rest ih =>
      intro acc hmem
      simp only [List.foldl_cons]
      rcases List.mem_cons.mp hmem with he | hmem2
      · rw [← he]
        apply fold_load_reg_mono
        exact upsert_any_self _ _ _
      · exact ih _ hmem2

theorem fold_load_reg_elim (getStep : String → String → Option String) (job_id : String) :
    ∀ (files : List RecordFile) (acc : List (String × Job) × List String),
      (files.foldl (loadStep getStep) acc).1.any (fun p => p.1 == job_id) = true →
      acc.1.any (fun p => p.1 == job_id) = true ∨
        ∃ name j, RecordFile.wellFormed name j ∈ files ∧ j.id = job_id := by
  intro files
  induction files with
  | nil => intro acc h; exact Or.inl h
  | cons f rest ih =>
      intro acc h
      simp only [List.foldl_cons] at h
      rcases ih _ h with h1 | ⟨name, j, hmem, hid⟩
      · cases hf : f with
        | corrupt name =>
            rw [hf] at h1
            exact Or.inl h1
        | wellFormed name j =>
            rw [hf] at h1
            rcases upsert_any_elim _ _ _ _ h1 with h2 | h2
            · exact Or.inl h2
            · exact Or.inr ⟨name, j, List.mem_cons_self _ _, h2.symm⟩
      · exact Or.inr ⟨name, j, List.mem_cons_of_mem _ hmem, hid⟩

/-- C9: `load_jobs` never raises (it is a total fold over the record files):
every record whose contents are not valid JSON is quarantined by renaming it
with a `.corrupted` suffix and skipped, every well-formed job record is
loaded into the in-memory registry under its id, and the registry holds
nothing but the well-formed records' ids. -/
theorem C9_load_jobs_quarantines_and_loads (getStep : String → String → Option String)
    (files : List RecordFile) :
    (∀ name, RecordFile.corrupt name ∈ files →
      (name ++ ".corrupted") ∈ (load_jobs getStep files).2) ∧
    (∀ name j, RecordFile.wellFormed name j ∈ files →
      (load_jobs getStep files).1.any (fun p => p.1 == j.id) = true) ∧
    (∀ job_id, (load_jobs getStep files).1.any (fun p => p.1 == job_id) = true →
      ∃ name j, RecordFile.wellFormed name j ∈ files ∧ j.id = job_id) := by
  refine ⟨?_, ?_, ?_⟩
  · intro name hmem
    exact fold_load_quar_of_corrupt getStep name files _ hmem
  · intro name j hmem
    exact fold_load_reg_of_wf getStep name j files _ hmem
  · intro job_id h
    rcases fold_load_reg_elim getStep job_id files _ h with h1 | h1
    · exact absurd h1 (by simp)
    · exact h1

/-- Witness for C9 at a concrete input: the unreadable file is renamed with
the `.corrupted` suffix, and the well-formed record's id is in the rebuilt
registry. -/
theorem C9_witness :
    "bad.json.corrupted" ∈ (load_jobs (fun _ _ => none) demoFiles).2 ∧
    (load_jobs (fun _ _ => none) demoFiles).1.any (fun p => p.1 == "job_9") = true := by
  have h := C9_load_jobs_quarantines_and_loads (fun _ _ => none) demoFiles
  exact ⟨h.1 "bad.json" (by decide), h.2.1 "good.json" (newJob "job_9" "human" "proj" 0)
    (by decide)⟩

theorem runActions_append (now : Nat) (j : Job) (l1 l2 : List StepAction) :
    runActions now j (l1 ++ l2) = runActions now (runActions now j l1) l2 := by
  unfold runActions
  rw [List.foldl_append]

theorem runActions_all_log_fields (now : Nat) :
    ∀ (acts : List StepAction) (j : Job), (∀ a ∈ acts, isLogAction a = true) →
      (runActions now j acts).status = j.status ∧
      (runActions now j acts).progress = j.progress ∧
      (runActions now j acts).ended_at = j.ended_at ∧
      (runActions now j acts).current_step = j.current_step ∧
      (runActions now j acts).results = j.results := by
  intro acts
  induction acts with
  | nil => intro j _; exact ⟨rfl, rfl, rfl, rfl, rfl⟩
  | cons a rest ih =>
      intro j hall
      have ha : isLogAction a = true := hall a (List.mem_cons_self _ _)
      cases a with
      | update u => exact absurd ha (by simp [isLogAction])
      | log m lvl =>
          exact ih (applyActionJob now j (.log m lvl))
            (fun x hx => hall x (List.mem_cons_of_mem _ hx))

theorem stageStart_tail_all_log (db : String) (lines : List String) :
    ∀ a ∈ ([StepAction.log ("--- Starting " ++ db.toUpper ++ " Filter ---") "info",
        StepAction.log ("Command: blast_filter.py " ++ db) "info"] ++
        (lines.filter (fun l => l != "")).map (fun l => StepAction.log l "info")),
      isLogAction a = true := by
  intro a ha
  rcases List.mem_append.mp ha with h | h
  · simp only [List.mem_cons, List.not_mem_nil, or_false] at h
    rcases h with h | h <;> subst h <;> rfl
  · obtain ⟨l2, _, he⟩ := List.mem_map.mp h
    rw [← he]
    rfl

theorem runActions_stageStart_fields (now : Nat) (j : Job) (db : String) (lines : List String) :
    (runActions now j (stageStartActions db lines)).status = "running" ∧
    (runActions now j (stageStartActions db lines)).progress = progress_map db ∧
    (runActions now j (stageStartActions db lines)).ended_at = j.ended_at ∧
    (runActions now j (stageStartActions db lines)).current_step =
      some ("Starting " ++ db ++ " filter...") ∧
    (runActions now j (stageStartActions db lines)).results = j.results := by
  have heq : runActions now j (stageStartActions db lines) =
      runActions now
        (j.applyUpdates
          { status := some "running"
            current_step := some ("Starting " ++ db ++ " filter...")
            progress := some (progress_map db) })
        ([StepAction.log ("--- Starting " ++ db.toUpper ++ " Filter ---") "info",
          StepAction.log ("Command: blast_filter.py " ++ db) "info"] ++
          (lines.filter (fun l => l != "")).map (fun l => StepAction.log l "info")) := rfl
  have h := runActions_all_log_fields now
    ([StepAction.log ("--- Starting " ++ db.toUpper ++ " Filter ---") "info",
      StepAction.log ("Command: blast_filter.py " ++ db) "info"] ++
      (lines.filter (fun l => l != "")).map (fun l => StepAction.log l "info"))
    (j.applyUpdates
      { status := some "running"
        current_step := some ("Starting " ++ db ++ " filter...")
        progress := some (progress_map db) })
    (stageStart_tail_all_log db lines)
  refine ⟨?_, ?_, ?_, ?_, ?_⟩
  · rw [heq, h.1, applyUpdates_status]; rfl
  · rw [heq, h.2.1, applyUpdates_progress]; rfl
  · rw [heq, h.2.2.1, applyUpdates_ended_at]
  · rw [heq, h.2.2.2.1, applyUpdates_current_step]
  · rw [heq, h.2.2.2.2, applyUpdates_results]; rfl

theorem firstFailing_cons_none {env : String → StageEnv} {db : String} {rest : List String}
    (h : firstFailing env (db :: rest) = none) :
    stageFails env db = false ∧ firstFailing env rest = none := by
  unfold firstFailing at h
  by_cases hf : stageFails env db = true
  · rw [if_pos hf] at h; exact absurd h (by simp)
  · have hf2 : stageFails env db = false := by simpa using hf
    rw [if_neg hf] at h
    exact ⟨hf2, Option.map_eq_none.mp h⟩

theorem firstFailing_cons_some {env : String → StageEnv} {db : String} {rest : List String}
    {i : Nat} (h : firstFailing env (db :: rest) = some i) :
    (stageFails env db = true ∧ i = 0) ∨
      (stageFails env db = false ∧ ∃ i2, firstFailing env rest = some i2 ∧ i = i2 + 1) := by
  unfold firstFailing at h
  by_cases hf : stageFails env db = true
  · rw [if_pos hf] at h
    exact Or.inl ⟨hf, by simpa using h.symm⟩
  · have hf2 : stageFails env db = false := by simpa using hf
    rw [if_neg hf] at h
    rcases hmap : firstFailing env rest with _ | i2
    · rw [hmap] at h; exact absurd h (by simp)
    · rw [hmap] at h
      exact Or.inr ⟨hf2, i2, rfl, by simpa using h.symm⟩

theorem runActions_upd_log_status (now : Nat) (j : Job) (u : JobUpdates) (m lvl : String) :
    (runActions now j [StepAction.update u, StepAction.log m lvl]).status =
      u.status.getD j.status := by
  have e : (runActions now j [StepAction.update u, StepAction.log m lvl]).status =
      (j.applyUpdates u).status := rfl
  rw [e, applyUpdates_status]

theorem runActions_upd_log_results (now : Nat) (j : Job) (u : JobUpdates) (m lvl : String) :
    (runActions now j [StepAction.update u, StepAction.log m lvl]).results =
      u.results.getD j.results := by
  have e : (runActions now j [StepAction.update u, StepAction.log m lvl]).results =
      (j.applyUpdates u).results := rfl
  rw [e, applyUpdates_results]

theorem runActions_upd_log_step (now : Nat) (j : Job) (u : JobUpdates) (m lvl : String) :
    (runActions now j [StepAction.update u, StepAction.log m lvl]).current_step =
      match u.current_step with
      | some c => some c
      | none => j.current_step := by
  have e : (runActions now j [StepAction.update u, StepAction.log m lvl]).current_step =
      (j.applyUpdates u).current_step := rfl
  rw [e, applyUpdates_current_step]

theorem runActions_upd_log_ended (now : Nat) (j : Job) (u : JobUpdates) (m lvl : String) :
    (runActions now j [StepAction.update u, StepAction.log m lvl]).ended_at =
      match u.ended_at with
      | some t => some t
      | none => j.ended_at := by
  have e : (runActions now j [StepAction.update u, StepAction.log m lvl]).ended_at =
      (j.applyUpdates u).ended_at := rfl
  rw [e, applyUpdates_ended_at]

theorem runActions_upd_log_progress (now : Nat) (j : Job) (u : JobUpdates) (m lvl : String) :
    (runActions now j [StepAction.update u, StepAction.log m lvl]).progress =
      u.progress.getD j.progress := by
  have e : (runActions now j [StepAction.update u, StepAction.log m lvl]).progress =
      (j.applyUpdates u).progress := rfl
  rw [e, applyUpdates_progress]

theorem runningCount_all_log (l : List StepAction) (h : ∀ a ∈ l, isLogAction a = true) :
    runningCount l = 0 := by
  unfold runningCount
  rw [List.countP_eq_zero]
  intro a ha
  have := h a ha
  cases a with
  | update u => exact absurd this (by simp [isLogAction])
  | log m lvl => simp

theorem runningCount_stageStart (db : String) (lines : List String) :
    runningCount (stageStartActions db lines) = 1 := by
  have e : stageStartActions db lines =
      [StepAction.update
        { status := some "running"
          current_step := some ("Starting " ++ db ++ " filter...")
          progress := some (progress_map db) }] ++
        ([StepAction.log ("--- Starting " ++ db.toUpper ++ " Filter ---") "info",
          StepAction.log ("Command: blast_filter.py " ++ db) "info"] ++
          (lines.filter (fun l => l != "")).map (fun l => StepAction.log l "info")) := rfl
  rw [e]
  unfold runningCount
  rw [List.countP_append]
  have h0 := runningCount_all_log _ (stageStart_tail_all_log db lines)
  unfold runningCount at h0
  rw [h0]
  rfl

theorem stageFails_false_parts {env : String → StageEnv} {db : String}
    (h : stageFails env db = false) :
    ((env db).returncode != 0) = false ∧ ∃ r, (env db).step_results = some r := by
  unfold stageFails at h
  rcases Bool.or_eq_false_iff.mp h with ⟨h1, h2⟩
  refine ⟨h1, ?_⟩
  rcases hv : (env db).step_results with _ | r
  · rw [hv] at h2; exact absurd h2 (by simp)
  · exact ⟨r, rfl⟩

theorem runStages_success (env : String → StageEnv) (now : Nat) :
    ∀ (dbs : List String) (acc : List (String × String)) (j : Job),
      firstFailing env dbs = none → resultKeys j = acc.map Prod.fst →
      (runActions now j (runStagesActions env now dbs acc)).status = "completed" ∧
      resultKeys (runActions now j (runStagesActions env now dbs acc)) =
        acc.map Prod.fst ++ dbs ∧
      runningCount (runStagesActions env now dbs acc) = dbs.length := by
  intro dbs
  induction dbs with
  | nil =>
      intro acc j _ hres
      refine ⟨?_, ?_, ?_⟩
      · simp only [runStagesActions]
        rw [runActions_upd_log_status]
        rfl
      · simp only [runStagesActions]
        unfold resultKeys
        rw [runActions_upd_log_results]
        simp
      · rfl
  | cons db rest ih =>
      intro acc j hff hres
      obtain ⟨hok, hrest⟩ := firstFailing_cons_none hff
      obtain ⟨hrc, r, hsrv⟩ := stageFails_false_parts hok
      have htr : runStagesActions env now (db :: rest) acc =
          stageStartActions db (env db).lines ++
            ([StepAction.update { results := some (some (.byStage (acc ++ [(db, r)]))) },
              StepAction.log ("--- " ++ db.toUpper ++ " Filter Completed Successfully ---")
                "success"] ++
              runStagesActions env now rest (acc ++ [(db, r)])) := by
        simp only [runStagesActions]
        rw [if_neg (by simp [hrc]), hsrv]
      have hstage := runActions_stageStart_fields now j db (env db).lines
      have hr3 : resultKeys (runActions now (runActions now j (stageStartActions db (env db).lines))
          [StepAction.update { results := some (some (.byStage (acc ++ [(db, r)]))) },
            StepAction.log ("--- " ++ db.toUpper ++ " Filter Completed Successfully ---")
              "success"]) = (acc ++ [(db, r)]).map Prod.fst := by
        unfold resultKeys
        rw [runActions_upd_log_results]
        rfl
      have hIH := ih (acc ++ [(db, r)]) _ hrest hr3
      refine ⟨?_, ?_, ?_⟩
      · rw [htr, runActions_append, runActions_append]
        exact hIH.1
      · rw [htr, runActions_append, runActions_append]
        rw [hIH.2.1]
        simp
      · rw [htr]
        unfold runningCount
        rw [List.countP_append, List.countP_append]
        have h1 : runningCount (stageStartActions db (env db).lines) = 1 :=
          runningCount_stageStart db (env db).lines
        unfold runningCount at h1 hIH
        rw [h1, hIH.2.2]
        simp only [List.length_cons]
        have h2 : List.countP
            (fun a => match a with
              | StepAction.update u => u.status == some "running"
              | _ => false)
            [StepAction.update { results := some (some (.byStage (acc ++ [(db, r)]))) },
              StepAction.log ("--- " ++ db.toUpper ++ " Filter Completed Successfully ---")
                "success"] = 0 := rfl
        rw [h2]
        omega

theorem resultKeys_congr {x y : Job} (h : x.results = y.results) :
    resultKeys x = resultKeys y := by
  unfold resultKeys
  rw [h]

theorem runStages_fail (env : String → StageEnv) (now : Nat) :
    ∀ (dbs : List String) (acc : List (String × String)) (j : Job) (i : Nat) (db : String),
      firstFailing env dbs = some i → dbs[i]? = some db →
      resultKeys j = acc.map Prod.fst →
      (runActions now j (runStagesActions env now dbs acc)).status = "failed" ∧
      resultKeys (runActions now j (runStagesActions env now dbs acc)) =
        acc.map Prod.fst ++ dbs.take i ∧
      runningCount (runStagesActions env now dbs acc) = i + 1 ∧
      ((runActions now j (runStagesActions env now dbs acc)).current_step =
          some ("Failed during " ++ db ++ " filter.") ∨
        (runActions now j (runStagesActions env now dbs acc)).current_step =
          some ("Error: " ++ db ++ " step completed but no output files were found.")) := by
  intro dbs
  induction dbs with
  | nil =>
      intro acc j i db hff _ _
      exact absurd hff (by simp [firstFailing])
  | cons db0 rest ih =>
      intro acc j i db hff hget hres
      have hstage := runActions_stageStart_fields now j db0 (env db0).lines
      rcases firstFailing_cons_some hff with ⟨hfail, hi⟩ | ⟨hok, i2, hrest, hi⟩
      · subst hi
        have hdb : db0 = db := by simpa using hget
        subst hdb
        by_cases hrc : ((env db0).returncode != 0) = true
        · have htr : runStagesActions env now (db0 :: rest) acc =
              stageStartActions db0 (env db0).lines ++
                [StepAction.update
                  { status := some "failed"
                    ended_at := some now
                    current_step := some ("Failed during " ++ db0 ++ " filter.") },
                  StepAction.log ("Pipeline stopped: " ++ db0 ++ " filter failed.") "error"] := by
            simp only [runStagesActions]
            rw [if_pos hrc]
          refine ⟨?_, ?_, ?_, ?_⟩
          · rw [htr, runActions_append, runActions_upd_log_status]
            rfl
          · rw [htr, runActions_append]
            have hfr : (runActions now (runActions now j (stageStartActions db0 (env db0).lines))
                [StepAction.update
                  { status := some "failed"
                    ended_at := some now
                    current_step := some ("Failed during " ++ db0 ++ " filter.") },
                  StepAction.log ("Pipeline stopped: " ++ db0 ++ " filter failed.") "error"]).results
                = j.results := by
              rw [runActions_upd_log_results]
              simpa using hstage.2.2.2.2
            rw [resultKeys_congr hfr, hres]
            simp
          · rw [htr]
            unfold runningCount
            rw [List.countP_append]
            have h1 := runningCount_stageStart db0 (env db0).lines
            unfold runningCount at h1
            rw [h1]
            rfl
          · rw [htr, runActions_append, runActions_upd_log_step]
            exact Or.inl rfl
        · have hsrv : (env db0).step_results = none := by
            unfold stageFails at hfail
            rcases Bool.or_eq_true_iff.mp hfail with h1 | h1
            · exact absurd h1 hrc
            · rcases hv : (env db0).step_results with _ | r2
              · rfl
              · rw [hv] at h1; exact absurd h1 (by simp)
          have htr : runStagesActions env now (db0 :: rest) acc =
              stageStartActions db0 (env db0).lines ++
                [StepAction.update
                  { status := some "failed"
                    ended_at := some now
                    current_step := some ("Error: " ++ db0 ++
                      " step completed but no output files were found.") },
                  StepAction.log ("Fatal Error: " ++ db0 ++
                    " step completed but no output files were found.") "error"] := by
            simp only [runStagesActions]
            rw [if_neg (by simp [hrc]), hsrv]
          refine ⟨?_, ?_, ?_, ?_⟩
          · rw [htr, runActions_append, runActions_upd_log_status]
            rfl
          · rw [htr, runActions_append]
            have hfr : (runActions now (runActions now j (stageStartActions db0 (env db0).lines))
                [StepAction.update
                  { status := some "failed"
                    ended_at := some now
                    current_step := some ("Error: " ++ db0 ++
                      " step completed but no output files were found.") },
                  StepAction.log ("Fatal Error: " ++ db0 ++
                    " step completed but no output files were found.") "error"]).results
                = j.results := by
              rw [runActions_upd_log_results]
              simpa using hstage.2.2.2.2
            rw [resultKeys_congr hfr, hres]
            simp
          · rw [htr]
            unfold runningCount
            rw [List.countP_append]
            have h1 := runningCount_stageStart db0 (env db0).lines
            unfold runningCount at h1
            rw [h1]
            rfl
          · rw [htr, runActions_append, runActions_upd_log_step]
            exact Or.inr rfl
      · subst hi
        obtain ⟨hrc, r, hsrv⟩ := stageFails_false_parts hok
        have hget2 : rest[i2]? = some db := by simpa using hget
        have htr : runStagesActions env now (db0 :: rest) acc =
            stageStartActions db0 (env db0).lines ++
              ([StepAction.update { results := some (some (.byStage (acc ++ [(db0, r)]))) },
                StepAction.log ("--- " ++ db0.toUpper ++ " Filter Completed Successfully ---")
                  "success"] ++
                runStagesActions env now rest (acc ++ [(db0, r)])) := by
          simp only [runStagesActions]
          rw [if_neg (by simp [hrc]), hsrv]
        have hr3 : resultKeys (runActions now
            (runActions now j (stageStartActions db0 (env db0).lines))
            [StepAction.update { results := some (some (.byStage (acc ++ [(db0, r)]))) },
              StepAction.log ("--- " ++ db0.toUpper ++ " Filter Completed Successfully ---")
                "success"]) = (acc ++ [(db0, r)]).map Prod.fst := by
          unfold resultKeys
          rw [runActions_upd_log_results]
          rfl
        have hIH := ih (acc ++ [(db0, r)]) _ i2 db hrest hget2 hr3
        refine ⟨?_, ?_, ?_, ?_⟩
        · rw [htr, runActions_append, runActions_append]
          exact hIH.1
        · rw [htr, runActions_append, runActions_append, hIH.2.1]
          simp
        · rw [htr]
          unfold runningCount
          rw [List.countP_append, List.countP_append]
          have h1 := runningCount_stageStart db0 (env db0).lines
          unfold runningCount at h1 hIH
          rw [h1, hIH.2.2.1]
          have h2 : List.countP
              (fun a => match a with
                | StepAction.update u => u.status == some "running"
                | _ => false)
              [StepAction.update { results := some (some (.byStage (acc ++ [(db0, r)]))) },
                StepAction.log ("--- " ++ db0.toUpper ++ " Filter Completed Successfully ---")
                  "success"] = 0 := rfl
          rw [h2]
          omega
        · rw [htr, runActions_append, runActions_append]
          exact hIH.2.2.2

/-- C4: for every full-pipeline job over the fixed stage order
`human, deg, vfdb, eskape`: if no stage fails the job ends `completed` with a
result entry for all four stages; if stage `i` is the first whose tool exits
nonzero or whose result artifacts are absent, the job ends `failed` with a
step label naming that stage, exactly the stages before it appear in
`resultsByStage`, and exactly stages `0..i` were started (no later stage
runs). -/
theorem C4_full_pipeline_fail_fast (env : String → StageEnv) (now n0 : Nat)
    (jid jt proj : String) :
    (firstFailing env databases = none →
      (runActions now (newJob jid jt proj n0) (run_full_pipeline_actions env now)).status =
        "completed" ∧
      resultKeys (runActions now (newJob jid jt proj n0) (run_full_pipeline_actions env now)) =
        databases ∧
      runningCount (run_full_pipeline_actions env now) = databases.length) ∧
    (∀ i db, firstFailing env databases = some i → databases[i]? = some db →
      (runActions now (newJob jid jt proj n0) (run_full_pipeline_actions env now)).status =
        "failed" ∧
      resultKeys (runActions now (newJob jid jt proj n0) (run_full_pipeline_actions env now)) =
        databases.take i ∧
      runningCount (run_full_pipeline_actions env now) = i + 1 ∧
      ((runActions now (newJob jid jt proj n0)
          (run_full_pipeline_actions env now)).current_step =
            some ("Failed during " ++ db ++ " filter.") ∨
        (runActions now (newJob jid jt proj n0)
          (run_full_pipeline_actions env now)).current_step =
            some ("Error: " ++ db ++ " step completed but no output files were found."))) := by
  constructor
  · intro h
    have hs := runStages_success env now databases [] (newJob jid jt proj n0) h rfl
    unfold run_full_pipeline_actions
    simpa using hs
  · intro i db h1 h2
    have hs := runStages_fail env now databases [] (newJob jid jt proj n0) i db h1 h2 rfl
    unfold run_full_pipeline_actions
    simpa using hs

/-- Witness for C4 at the spec's concrete scenario: stage `vfdb` exits
nonzero, so the job ends `failed`, `resultsByStage` holds exactly `human`
and `deg`, and only three stages ever started. -/
theorem C4_witness :
    firstFailing envVfdbFails databases = some 2 ∧
    (runActions 50 (newJob "job_1" "pipeline_all" "proj" 0)
      (run_full_pipeline_actions envVfdbFails 50)).status = "failed" ∧
    resultKeys (runActions 50 (newJob "job_1" "pipeline_all" "proj" 0)
      (run_full_pipeline_actions envVfdbFails 50)) = ["human", "deg"] ∧
    runningCount (run_full_pipeline_actions envVfdbFails 50) = 3 := by
  have h := (C4_full_pipeline_fail_fast envVfdbFails 50 0 "job_1" "pipeline_all" "proj").2
    2 "vfdb" (by decide) (by decide)
  refine ⟨by decide, h.1, ?_, h.2.2.1⟩
  rw [h.2.1]
  rfl

theorem milestoneActs_pso (line : String) :
    ∀ a ∈ milestoneActs line, progressStepOnly a = true := by
  intro a ha
  unfold milestoneActs at ha
  rcases hm : milestone line with _ | ⟨p, sb, cb⟩ <;> rw [hm] at ha
  · simp at ha
  · simp only [List.mem_cons, List.not_mem_nil, or_false] at ha
    subst ha
    rfl

theorem sizeActs_pso (bs : Bool) (szOpt : Option Nat) (last : Nat) :
    ∀ a ∈ (sizeActs bs szOpt last).1, progressStepOnly a = true := by
  intro a ha
  rcases bs with _ | _
  · simp [sizeActs] at ha
  · rcases szOpt with _ | sz
    · simp [sizeActs] at ha
    · by_cases hlt : last < sz
      · simp only [sizeActs, if_pos hlt] at ha
        simp only [List.mem_cons, List.not_mem_nil, or_false] at ha
        subst ha
        rfl
      · simp [sizeActs, if_neg hlt] at ha

theorem lineActions_pso (size : Nat → Option Nat) :
    ∀ (lines : List String) (i : Nat) (bs : Bool) (last : Nat),
      ∀ a ∈ lineActions size lines i bs last, progressStepOnly a = true := by
  intro lines
  induction lines with
  | nil =>
      intro i bs last a ha
      simp [lineActions] at ha
  | cons line rest ih =>
      intro i bs last a ha
      rw [lineActions] at ha
      by_cases hl : (line == "") = true
      · rw [if_pos hl] at ha
        exact ih _ _ _ a ha
      · rw [if_neg hl] at ha
        rcases List.mem_append.mp ha with h | h
        · rcases List.mem_append.mp h with h2 | h2
          · rcases List.mem_append.mp h2 with h3 | h3
            · simp only [List.mem_cons, List.not_mem_nil, or_false] at h3
              subst h3
              rfl
            · exact milestoneActs_pso line a h3
          · exact sizeActs_pso _ _ _ a h2
        · exact ih _ _ _ a h

theorem pso_not_terminal {a : StepAction} (h : progressStepOnly a = true) :
    isTerminalUpdate a = false := by
  cases a with
  | log m lvl => rfl
  | update u =>
      simp only [progressStepOnly, Bool.and_eq_true, beq_iff_eq] at h
      obtain ⟨⟨⟨h1, h2⟩, h3⟩, h4⟩ := h
      simp [isTerminalUpdate, h1]

theorem pso_preOK {a : StepAction} (h : progressStepOnly a = true) : preOK a = true := by
  cases a with
  | log m lvl => rfl
  | update u =>
      simp only [progressStepOnly, Bool.and_eq_true, beq_iff_eq] at h
      obtain ⟨⟨⟨h1, h2⟩, h3⟩, h4⟩ := h
      simp [preOK, h1, h2]

theorem dropWhile_append_all {p : StepAction → Bool} (l1 l2 : List StepAction)
    (h : ∀ a ∈ l1, p a = true) :
    (l1 ++ l2).dropWhile p = l2.dropWhile p := by
  induction l1 with
  | nil => rfl
  | cons a rest ih =>
      have ha : p a = true := h a (List.mem_cons_self _ _)
      simp only [List.cons_append, List.dropWhile_cons, ha, if_true]
      exact ih (fun x hx => h x (List.mem_cons_of_mem _ hx))

theorem countP_zero (p : StepAction → Bool) (l : List StepAction)
    (h : ∀ a ∈ l, p a = false) : l.countP p = 0 := by
  rw [List.countP_eq_zero]
  intro a ha
  simp [h a ha]

theorem stageStart_not_terminal (db : String) (lines : List String) :
    ∀ a ∈ stageStartActions db lines, isTerminalUpdate a = false := by
  intro a ha
  have e : stageStartActions db lines =
      [StepAction.update
        { status := some "running"
          current_step := some ("Starting " ++ db ++ " filter...")
          progress := some (progress_map db) }] ++
        ([StepAction.log ("--- Starting " ++ db.toUpper ++ " Filter ---") "info",
          StepAction.log ("Command: blast_filter.py " ++ db) "info"] ++
          (lines.filter (fun l => l != "")).map (fun l => StepAction.log l "info")) := rfl
  rw [e] at ha
  rcases List.mem_append.mp ha with h | h
  · simp only [List.mem_cons, List.not_mem_nil, or_false] at h
    subst h
    rfl
  · have hlog := stageStart_tail_all_log db lines a h
    cases a with
    | update u => exact absurd hlog (by simp [isLogAction])
    | log m lvl => rfl

theorem terminalCount_stageStart (db : String) (lines : List String) :
    (stageStartActions db lines).countP isTerminalUpdate = 0 :=
  countP_zero _ _ (stageStart_not_terminal db lines)

theorem terminalCount_lineActions (size : Nat → Option Nat) (lines : List String)
    (i : Nat) (bs : Bool) (last : Nat) :
    (lineActions size lines i bs last).countP isTerminalUpdate = 0 :=
  countP_zero _ _ (fun a ha => pso_not_terminal (lineActions_pso size lines i bs last a ha))

theorem run_step_terminalCount (db : String) (lines : List String) (size : Nat → Option Nat)
    (rc : Int) (res : Option String) (now : Nat) :
    (run_step_actions db lines size rc res now).countP isTerminalUpdate = 1 := by
  unfold run_step_actions
  rw [List.countP_append, List.countP_append]
  rw [terminalCount_lineActions]
  by_cases hb : (rc == 0) = true
  · rw [if_pos hb]
    rfl
  · rw [if_neg hb]
    rfl

theorem run_step_postTerminal (db : String) (lines : List String) (size : Nat → Option Nat)
    (rc : Int) (res : Option String) (now : Nat) :
    ((postTerminal (run_step_actions db lines size rc res now)).all touchesOnlyResults)
      = true := by
  unfold run_step_actions postTerminal
  rw [dropWhile_append_all]
  · by_cases hb : (rc == 0) = true
    · rw [if_pos hb]
      rfl
    · rw [if_neg hb]
      rfl
  · intro a ha
    rcases List.mem_append.mp ha with h | h
    · have e : ∀ x ∈ [StepAction.update
          { status := some "running"
            started_at := some now
            current_step := some ("Starting " ++ db ++ " filter")
            progress := some 5 },
          StepAction.log ("Starting " ++ db ++ " filter for project...") "info",
          StepAction.log ("Command: blast_filter.py " ++ db) "info"],
          isTerminalUpdate x = false := by
        intro x hx
        simp only [List.mem_cons, List.not_mem_nil, or_false] at hx
        rcases hx with hx | hx | hx <;> subst hx <;> rfl
      simp [e a h]
    · simp [pso_not_terminal (lineActions_pso size lines 0 false 0 a h)]

theorem runStages_terminalCount (env : String → StageEnv) (now : Nat) :
    ∀ (dbs : List String) (acc : List (String × String)),
      (runStagesActions env now dbs acc).countP isTerminalUpdate = 1 := by
  intro dbs
  induction dbs with
  | nil => intro acc; rfl
  | cons db rest ih =>
      intro acc
      simp only [runStagesActions]
      rw [List.countP_append, terminalCount_stageStart]
      by_cases hrc : (((env db).returncode != 0)) = true
      · rw [if_pos hrc]
        rfl
      · rw [if_neg hrc]
        rcases hsr : (env db).step_results with _ | r
        · rfl
        · rw [List.countP_append]
          rw [ih (acc ++ [(db, r)])]
          rfl

theorem runStages_postTerminal (env : String → StageEnv) (now : Nat) :
    ∀ (dbs : List String) (acc : List (String × String)),
      ((postTerminal (runStagesActions env now dbs acc)).all isLogAction) = true := by
  intro dbs
  induction dbs with
  | nil => intro acc; rfl
  | cons db rest ih =>
      intro acc
      simp only [runStagesActions]
      unfold postTerminal
      rw [dropWhile_append_all _ _
        (fun a ha => by simp [stageStart_not_terminal db (env db).lines a ha])]
      by_cases hrc : (((env db).returncode != 0)) = true
      · rw [if_pos hrc]
        rfl
      · rw [if_neg hrc]
        rcases hsr : (env db).step_results with _ | r
        · rfl
        · rw [dropWhile_append_all]
          · exact ih (acc ++ [(db, r)])
          · intro a ha
            simp only [List.mem_cons, List.not_mem_nil, or_false] at ha
            rcases ha with ha | ha <;> subst ha <;> rfl

/-- C7 amended: in every coordinator execution the terminal state is written
by exactly one update; in the full pipeline nothing but log appends follows
it, and in the single-stage coordinator the only post-terminal mutation is
the success path's results attachment — one update that touches no field
except `results` (followed only by log appends otherwise). -/
theorem C7_terminal_emitted_once (db : String) (lines : List String)
    (size : Nat → Option Nat) (rc : Int) (res : Option String) (now : Nat)
    (env : String → StageEnv) (now2 : Nat) :
    (run_step_actions db lines size rc res now).countP isTerminalUpdate = 1 ∧
    ((postTerminal (run_step_actions db lines size rc res now)).all touchesOnlyResults)
      = true ∧
    (run_full_pipeline_actions env now2).countP isTerminalUpdate = 1 ∧
    ((postTerminal (run_full_pipeline_actions env now2)).all isLogAction) = true :=
  ⟨run_step_terminalCount db lines size rc res now,
    run_step_postTerminal db lines size rc res now,
    runStages_terminalCount env now2 databases [],
    runStages_postTerminal env now2 databases []⟩

/-- C7 counterexample: in the single-stage success trace the terminal
`completed` update is not the very last update — it is followed by an update
that mutates the `results` field (a field other than `logLines`), so the
claim as stated is false on the code (app.py lines 322-323 run after the
terminal update at lines 314-319). -/
theorem C7_counterexample :
    demoStepActs.countP isTerminalUpdate = 1 ∧
    ((postTerminal demoStepActs).any
      (fun a =>
        match a with
        | StepAction.update u => u.results != none
        | StepAction.log _ _ => false)) = true ∧
    ¬ ((postTerminal demoStepActs).all isLogAction = true) := by
  decide

theorem pw_all_log (l : List StepAction) (h : ∀ a ∈ l, isLogAction a = true) :
    progressWrites l = [] := by
  unfold progressWrites
  rw [List.filterMap_eq_nil_iff]
  intro a ha
  have := h a ha
  cases a with
  | update u => exact absurd this (by simp [isLogAction])
  | log m lvl => rfl

theorem pw_stageStart (db : String) (lines : List String) :
    progressWrites (stageStartActions db lines) = [progress_map db] := by
  have e : stageStartActions db lines =
      [StepAction.update
        { status := some "running"
          current_step := some ("Starting " ++ db ++ " filter...")
          progress := some (progress_map db) }] ++
        ([StepAction.log ("--- Starting " ++ db.toUpper ++ " Filter ---") "info",
          StepAction.log ("Command: blast_filter.py " ++ db) "info"] ++
          (lines.filter (fun l => l != "")).map (fun l => StepAction.log l "info")) := rfl
  rw [e]
  unfold progressWrites
  rw [List.filterMap_append]
  have h0 := pw_all_log _ (stageStart_tail_all_log db lines)
  unfold progressWrites at h0
  rw [h0]
  rfl

theorem pwList_cons (env : String → StageEnv) (db : String) (rest : List String) :
    pwList env (db :: rest) =
      if stageFails env db = true then [progress_map db]
      else progress_map db :: pwList env rest := rfl

theorem pw_runStages (env : String → StageEnv) (now : Nat) :
    ∀ (dbs : List String) (acc : List (String × String)),
      progressWrites (runStagesActions env now dbs acc) = pwList env dbs := by
  intro dbs
  induction dbs with
  | nil => intro acc; rfl
  | cons db rest ih =>
      intro acc
      simp only [runStagesActions]
      unfold progressWrites
      rw [List.filterMap_append]
      have h1 := pw_stageStart db (env db).lines
      unfold progressWrites at h1
      rw [h1]
      by_cases hsf : stageFails env db = true
      · have hpw : pwList env (db :: rest) = [progress_map db] := by
          rw [pwList_cons, if_pos hsf]
        rw [hpw]
        by_cases hrc : ((env db).returncode != 0) = true
        · rw [if_pos hrc]
          rfl
        · have hsrv : (env db).step_results = none := by
            unfold stageFails at hsf
            rcases Bool.or_eq_true_iff.mp hsf with h2 | h2
            · exact absurd h2 hrc
            · rcases hv : (env db).step_results with _ | r2
              · rfl
              · rw [hv] at h2; exact absurd h2 (by simp)
          rw [if_neg hrc, hsrv]
          rfl
      · have hsf2 : stageFails env db = false := by simpa using hsf
        obtain ⟨hrc, r, hsrv⟩ := stageFails_false_parts hsf2
        have hpw : pwList env (db :: rest) = progress_map db :: pwList env rest := by
          rw [pwList_cons, if_neg (by simp [hsf2])]
        rw [hpw, if_neg (by simp [hrc]), hsrv]
        rw [List.filterMap_append]
        have h2 := ih (acc ++ [(db, r)])
        unfold progressWrites at h2
        rw [h2]
        rfl

theorem pwList_databases_ok (env : String → StageEnv) :
    nondecreasing (pwList env databases) = true ∧
    ∀ x ∈ pwList env databases, 0 ≤ x ∧ x ≤ 100 := by
  unfold databases
  by_cases h1 : stageFails env "human" = true <;>
    by_cases h2 : stageFails env "deg" = true <;>
      by_cases h3 : stageFails env "vfdb" = true <;>
        by_cases h4 : stageFails env "eskape" = true <;>
          simp only [pwList, h1, h2, h3, h4, Bool.not_eq_true, if_true, if_false,
            eq_self_iff_true] <;>
          constructor <;> decide

theorem milestone_bounds {line : String} {p : Int} {sb cb : Bool}
    (h : milestone line = some (p, sb, cb)) : 0 ≤ p ∧ p ≤ 100 := by
  unfold milestone at h
  split_ifs at h <;>
    first
      | exact Option.noConfusion h
      | (injection h with ha
         injection ha with hp hrest
         subst hp
         decide)

theorem milestoneActs_bounds (line : String) :
    ∀ a ∈ milestoneActs line, ∀ p, progressOf a = some p → 0 ≤ p ∧ p ≤ 100 := by
  intro a ha p hp
  unfold milestoneActs at ha
  rcases hm : milestone line with _ | ⟨p0, sb, cb⟩ <;> rw [hm] at ha
  · simp at ha
  · simp only [List.mem_cons, List.not_mem_nil, or_false] at ha
    subst ha
    simp only [progressOf, Option.some.injEq] at hp
    subst hp
    exact milestone_bounds hm

theorem sizeActs_bounds (bs : Bool) (szOpt : Option Nat) (last : Nat) :
    ∀ a ∈ (sizeActs bs szOpt last).1, ∀ p, progressOf a = some p → 0 ≤ p ∧ p ≤ 100 := by
  intro a ha p hp
  rcases bs with _ | _
  · simp [sizeActs] at ha
  · rcases szOpt with _ | sz
    · simp [sizeActs] at ha
    · by_cases hlt : last < sz
      · simp only [sizeActs, if_pos hlt] at ha
        simp only [List.mem_cons, List.not_mem_nil, or_false] at ha
        subst ha
        simp only [progressOf, Option.some.injEq] at hp
        subst hp
        constructor
        · apply le_min
          · decide
          · exact add_nonneg (by decide) (Int.ofNat_nonneg _)
        · calc min 85 (25 + (Int.ofNat ((3 * sz) / 1048576))) ≤ 85 := min_le_left _ _
            _ ≤ 100 := by decide
      · simp [sizeActs, if_neg hlt] at ha

theorem lineActions_bounds (size : Nat → Option Nat) :
    ∀ (lines : List String) (i : Nat) (bs : Bool) (last : Nat),
      ∀ a ∈ lineActions size lines i bs last, ∀ p, progressOf a = some p →
        0 ≤ p ∧ p ≤ 100 := by
  intro lines
  induction lines with
  | nil =>
      intro i bs last a ha
      simp [lineActions] at ha
  | cons line rest ih =>
      intro i bs last a ha p hp
      rw [lineActions] at ha
      by_cases hl : (line == "") = true
      · rw [if_pos hl] at ha
        exact ih _ _ _ a ha p hp
      · rw [if_neg hl] at ha
        rcases List.mem_append.mp ha with h | h
        · rcases List.mem_append.mp h with h2 | h2
          · rcases List.mem_append.mp h2 with h3 | h3
            · simp only [List.mem_cons, List.not_mem_nil, or_false] at h3
              subst h3
              simp [progressOf] at hp
            · exact milestoneActs_bounds line a h3 p hp
          · exact sizeActs_bounds _ _ _ a h2 p hp
        · exact ih _ _ _ a h p hp

theorem run_step_pw_bounds (db : String) (lines : List String) (size : Nat → Option Nat)
    (rc : Int) (res : Option String) (now : Nat) :
    ∀ x ∈ progressWrites (run_step_actions db lines size rc res now),
      0 ≤ x ∧ x ≤ 100 := by
  intro x hx
  unfold run_step_actions progressWrites at hx
  rw [List.filterMap_append, List.filterMap_append] at hx
  rcases List.mem_append.mp hx with h | h
  · rcases List.mem_append.mp h with h2 | h2
    · simp only [List.filterMap, progressOf] at h2
      simp only [List.mem_cons, List.not_mem_nil, or_false] at h2
      subst h2
      decide
    · obtain ⟨a, hmem, hpr⟩ := List.mem_filterMap.mp h2
      exact lineActions_bounds size lines 0 false 0 a hmem x hpr
  · by_cases hb : (rc == 0) = true
    · rw [if_pos hb] at h
      simp only [List.filterMap, progressOf] at h
      simp only [List.mem_cons, List.not_mem_nil, or_false] at h
      subst h
      decide
    · rw [if_neg hb] at h
      simp [List.filterMap, progressOf] at h

theorem run_step_terminal_progress (db : String) (lines : List String)
    (size : Nat → Option Nat) (rc : Int) (res : Option String) (now : Nat) :
    ∀ a ∈ run_step_actions db lines size rc res now, isTerminalUpdate a = true →
      progressOf a = some 100 ∨ progressOf a = none := by
  intro a ha hterm
  unfold run_step_actions at ha
  rcases List.mem_append.mp ha with h | h
  · rcases List.mem_append.mp h with h2 | h2
    · simp only [List.mem_cons, List.not_mem_nil, or_false] at h2
      rcases h2 with h2 | h2 | h2 <;> subst h2 <;> exact absurd hterm (by simp [isTerminalUpdate, isTerminalStr])
    · rw [pso_not_terminal (lineActions_pso size lines 0 false 0 a h2)] at hterm
      exact absurd hterm (by simp)
  · by_cases hb : (rc == 0) = true
    · rw [if_pos hb] at h
      simp only [List.mem_cons, List.not_mem_nil, or_false] at h
      rcases h with h | h | h <;> subst h
      · exact Or.inl rfl
      · exact absurd hterm (by simp [isTerminalUpdate])
      · exact absurd hterm (by simp [isTerminalUpdate])
    · rw [if_neg hb] at h
      simp only [List.mem_cons, List.not_mem_nil, or_false] at h
      rcases h with h | h <;> subst h
      · exact Or.inr rfl
      · exact absurd hterm (by simp [isTerminalUpdate])

theorem runStages_terminal_progress (env : String → StageEnv) (now : Nat) :
    ∀ (dbs : List String) (acc : List (String × String)),
      ∀ a ∈ runStagesActions env now dbs acc, isTerminalUpdate a = true →
        progressOf a = some 100 ∨ progressOf a = none := by
  intro dbs
  induction dbs with
  | nil =>
      intro acc a ha hterm
      simp only [runStagesActions, List.mem_cons, List.not_mem_nil, or_false] at ha
      rcases ha with h | h <;> subst h
      · exact Or.inl rfl
      · exact absurd hterm (by simp [isTerminalUpdate])
  | cons db rest ih =>
      intro acc a ha hterm
      simp only [runStagesActions] at ha
      rcases List.mem_append.mp ha with h | h
      · rw [stageStart_not_terminal db (env db).lines a h] at hterm
        exact absurd hterm (by simp)
      · by_cases hrc : ((env db).returncode != 0) = true
        · rw [if_pos hrc] at h
          simp only [List.mem_cons, List.not_mem_nil, or_false] at h
          rcases h with h | h <;> subst h
          · exact Or.inr rfl
          · exact absurd hterm (by simp [isTerminalUpdate])
        · rw [if_neg hrc] at h
          rcases hsr : (env db).step_results with _ | r <;> rw [hsr] at h
          · simp only [List.mem_cons, List.not_mem_nil, or_false] at h
            rcases h with h | h <;> subst h
            · exact Or.inr rfl
            · exact absurd hterm (by simp [isTerminalUpdate])
          · rcases List.mem_append.mp h with h2 | h2
            · simp only [List.mem_cons, List.not_mem_nil, or_false] at h2
              rcases h2 with h2 | h2 <;> subst h2 <;>
                exact absurd hterm (by simp [isTerminalUpdate])
            · exact ih (acc ++ [(db, r)]) a h2 hterm

/-- C6 counterexample, both divergences at concrete inputs.  First: the
concrete running job sits at progress 50 and the `end_job` terminal update
(app.py line 2482, `'progress': 0`) lowers it to 0 while moving the job to
the terminal `failed` state — a terminal-state update that lowers progress.
Second: within one single-stage run, the two output lines `blast_filter.py`
actually prints in sequence (`STEP 5: Filtering` then `→ Parsing BLAST...`,
its lines 677 and 700) drive the milestone chain of app.py lines 279-292 to
write progress 90 and then 25 — not a stage-start reset but a mid-run
regression, so "never decreases within a run" fails for the single-stage
coordinator too. -/
theorem C6_counterexample :
    (getJob demoRunning "job_1").map Job.progress = some 50 ∧
    (getJob (end_job demoRunning "job_1" 7).1 "job_1").map Job.progress = some 0 ∧
    (getJob (end_job demoRunning "job_1" 7).1 "job_1").map Job.status = some "failed" ∧
    progressWrites (run_step_actions "human" demoRegressLines (fun _ => none) 0
      (some "summary") 9) = [5, 90, 25, 100] ∧
    nondecreasing (progressWrites (run_step_actions "human" demoRegressLines (fun _ => none) 0
      (some "summary") 9)) = false := by
  decide

/-- C6 amended: every progress value the coordinators write is an integer in
0–100; within a full-pipeline run the written progress sequence never
decreases; a terminal update of either coordinator writes progress 100 or
leaves progress untouched.  The two exceptions the counterexample exhibits
are carved out: the single-stage milestone heuristic lowers progress
mid-run when a later output line matches an earlier branch's keyword (the
tool's own `→ Parsing BLAST...` line after the `STEP 5` milestone writes
90 then 25), and the `end_job` manual stop resets progress to 0 in its
terminal `failed` update. -/
theorem C6_progress_monotone_except_end_job (env : String → StageEnv) (now : Nat)
    (db : String) (lines : List String) (size : Nat → Option Nat) (rc : Int)
    (res : Option String) (now2 : Nat) (s : ServerState) (job_id : String) (j : Job)
    (now3 : Nat) :
    nondecreasing (progressWrites (run_full_pipeline_actions env now)) = true ∧
    (∀ x ∈ progressWrites (run_full_pipeline_actions env now), 0 ≤ x ∧ x ≤ 100) ∧
    (∀ x ∈ progressWrites (run_step_actions db lines size rc res now2), 0 ≤ x ∧ x ≤ 100) ∧
    (∀ a ∈ run_step_actions db lines size rc res now2, isTerminalUpdate a = true →
      progressOf a = some 100 ∨ progressOf a = none) ∧
    (∀ a ∈ run_full_pipeline_actions env now, isTerminalUpdate a = true →
      progressOf a = some 100 ∨ progressOf a = none) ∧
    nondecreasing (progressWrites (run_step_actions "human" demoRegressLines (fun _ => none) 0
      (some "summary") 9)) = false ∧
    (getJob s job_id = some j → (j.status = "running" ∨ j.status = "queued") →
      (getJob (end_job s job_id now3).1 job_id).map Job.progress = some 0 ∧
      (getJob (end_job s job_id now3).1 job_id).map Job.status = some "failed") := by
  have hpw : progressWrites (run_full_pipeline_actions env now) = pwList env databases :=
    pw_runStages env now databases []
  refine ⟨?_, ?_, run_step_pw_bounds db lines size rc res now2,
    run_step_terminal_progress db lines size rc res now2,
    runStages_terminal_progress env now databases [], by decide, ?_⟩
  · rw [hpw]
    exact (pwList_databases_ok env).1
  · rw [hpw]
    exact (pwList_databases_ok env).2
  · intro hj hs
    have hguard : (j.status != "running" && j.status != "queued") = false := by
      rcases hs with h1 | h1 <;> rw [h1] <;> rfl
    have hstep : (end_job s job_id now3).1 = update_job s job_id (endJobUpdate now3) := by
      unfold end_job
      rw [hj]
      simp [hguard]
    rw [hstep, getJob_update_job_self (endJobUpdate now3) hj]
    constructor
    · simp [applyUpdates_progress, endJobUpdate]
    · simp [applyUpdates_status, endJobUpdate]

/-- Witness for C6 amended at concrete inputs: the all-success pipeline's
progress writes are 10, 35, 60, 85, 100 (never decreasing), and the manual
stop of the concrete running job resets progress to 0. -/
theorem C6_witness :
    nondecreasing (progressWrites (run_full_pipeline_actions envAllOk 50)) = true ∧
    (getJob (end_job demoRunning "job_1" 7).1 "job_1").map Job.progress = some 0 := by
  have h := C6_progress_monotone_except_end_job envAllOk 50 "human" [] (fun _ => none) 0
    (some "r") 9 demoRunning "job_1" demoRunningJob 7
  exact ⟨h.1, (h.2.2.2.2.2.2 (by decide) (Or.inl rfl)).1⟩

theorem updOK_none {u : JobUpdates} (h : u.status = none) : updOK u = true := by
  unfold updOK
  rw [h]

theorem updOK_some {u : JobUpdates} {st : String} (h : u.status = some st) :
    updOK u = (!isTerminalStr st || u.ended_at.isSome) := by
  unfold updOK
  rw [h]

theorem applyUpdates_invA {j : Job} {u : JobUpdates} (hu : updOK u = true)
    (hj : isTerminalStr j.status = true → j.ended_at.isSome = true) :
    isTerminalStr (j.applyUpdates u).status = true →
      (j.applyUpdates u).ended_at.isSome = true := by
  intro ht
  rw [applyUpdates_status] at ht
  rw [applyUpdates_ended_at]
  rcases hs : u.status with _ | st
  · rw [hs] at ht
    simp only [Option.getD_none] at ht
    rcases he : u.ended_at with _ | t
    · exact hj ht
    · simp
  · rw [hs] at ht
    simp only [Option.getD_some] at ht
    rw [updOK_some hs, ht] at hu
    simp only [Bool.not_true, Bool.false_or] at hu
    rcases he : u.ended_at with _ | t
    · rw [he] at hu; exact absurd hu (by simp)
    · simp

theorem preOK_actOK {a : StepAction} (h : preOK a = true) : actOK a = true := by
  cases a with
  | log m lvl => rfl
  | update u =>
      show updOK u = true
      simp only [preOK, Bool.and_eq_true] at h
      rcases hs : u.status with _ | st
      · exact updOK_none hs
      · rw [updOK_some hs]
        rw [hs] at h
        have h1 : (!isTerminalStr st) = true := h.1
        rw [h1]
        rfl

theorem termOK_actOK {a : StepAction} (h : termOK a = true) : actOK a = true := by
  cases a with
  | log m lvl => rfl
  | update u =>
      show updOK u = true
      simp only [termOK, Bool.and_eq_true] at h
      rcases hs : u.status with _ | st
      · rw [hs] at h
        have h1 : (false : Bool) = true := h.1
        exact absurd h1 (by simp)
      · rw [updOK_some hs, h.2]
        simp

theorem postOK_actOK {a : StepAction} (h : postOK a = true) : actOK a = true := by
  cases a with
  | log m lvl => rfl
  | update u =>
      show updOK u = true
      simp only [postOK, Bool.and_eq_true, beq_iff_eq] at h
      exact updOK_none h.1

theorem all_trans_actOK {l : List StepAction} (p : StepAction → Bool)
    (hp : ∀ a, p a = true → actOK a = true) (h : l.all p = true) : l.all actOK = true := by
  rw [List.all_eq_true] at h ⊢
  exact fun a ha => hp a (h a ha)

theorem wholeTrace_all_actOK : ∀ (acts : List StepAction), wholeTrace acts = true →
    acts.all actOK = true := by
  intro acts
  induction acts with
  | nil => intro _; rfl
  | cons a rest ih =>
      intro h
      unfold wholeTrace at h
      rcases Bool.or_eq_true_iff.mp h with h1 | h1
      · rcases Bool.and_eq_true_iff.mp h1 with ⟨ha, hrest⟩
        rw [List.all_cons, preOK_actOK ha, ih hrest]
        rfl
      · rcases Bool.and_eq_true_iff.mp h1 with ⟨ha, hrest⟩
        rw [List.all_cons, termOK_actOK ha, all_trans_actOK postOK (fun x hx => postOK_actOK hx) hrest]
        rfl

theorem applyActionJob_invA {now : Nat} {j : Job} {a : StepAction} (ha : actOK a = true)
    (hj : isTerminalStr j.status = true → j.ended_at.isSome = true) :
    isTerminalStr (applyActionJob now j a).status = true →
      (applyActionJob now j a).ended_at.isSome = true := by
  cases a with
  | log m lvl => exact hj
  | update u => exact applyUpdates_invA ha hj

theorem reach_invA {b : Bool} : ∀ {s t : Job × List StepAction}, Reach b s t →
    (isTerminalStr s.1.status = true → s.1.ended_at.isSome = true) →
    s.2.all actOK = true →
    (isTerminalStr t.1.status = true → t.1.ended_at.isSome = true) := by
  intro s t hr
  induction hr with
  | refl s => intro hj _; exact hj
  | coord now a h ih =>
      intro hj hall
      rw [List.all_cons] at hall
      rcases Bool.and_eq_true_iff.mp hall with ⟨ha, hrest⟩
      exact ih (applyActionJob_invA ha hj) hrest
  | endJobStep now hs he h ih =>
      intro hj hall
      exact ih (applyUpdates_invA rfl hj) hall

theorem phase_step {now : Nat} {j : Job} {a : StepAction} {rest : List StepAction}
    (h : (j.ended_at = none ∧ isTerminalStr j.status = false ∧ wholeTrace (a :: rest) = true) ∨
      (j.ended_at.isSome = true ∧ isTerminalStr j.status = true ∧
        (a :: rest).all postOK = true)) :
    ((applyActionJob now j a).ended_at = none ∧
        isTerminalStr (applyActionJob now j a).status = false ∧ wholeTrace rest = true) ∨
      ((applyActionJob now j a).ended_at.isSome = true ∧
        isTerminalStr (applyActionJob now j a).status = true ∧ rest.all postOK = true) := by
  rcases h with ⟨he, hst, hw⟩ | ⟨he, hst, hp⟩
  · unfold wholeTrace at hw
    rcases Bool.or_eq_true_iff.mp hw with h1 | h1
    · rcases Bool.and_eq_true_iff.mp h1 with ⟨ha, hrest⟩
      left
      cases a with
      | log m lvl => exact ⟨he, hst, hrest⟩
      | update u =>
          simp only [preOK, Bool.and_eq_true, beq_iff_eq] at ha
          refine ⟨?_, ?_, hrest⟩
          · show (j.applyUpdates u).ended_at = none
            rw [applyUpdates_ended_at, ha.2, he]
          · show isTerminalStr (j.applyUpdates u).status = false
            rw [applyUpdates_status]
            rcases hs : u.status with _ | st
            · simpa using hst
            · rw [hs] at ha
              simpa using ha.1
    · rcases Bool.and_eq_true_iff.mp h1 with ⟨ha, hrest⟩
      right
      cases a with
      | log m lvl => exact absurd ha (by simp [termOK])
      | update u =>
          simp only [termOK, Bool.and_eq_true] at ha
          refine ⟨?_, ?_, hrest⟩
          · show (j.applyUpdates u).ended_at.isSome = true
            rw [applyUpdates_ended_at]
            rcases hee : u.ended_at with _ | t
            · rw [hee] at ha; exact absurd ha.2 (by simp)
            · simp
          · show isTerminalStr (j.applyUpdates u).status = true
            rw [applyUpdates_status]
            rcases hs : u.status with _ | st
            · rw [hs] at ha; exact absurd ha.1 (by simp)
            · rw [hs] at ha
              simpa using ha.1
  · rw [List.all_cons] at hp
    rcases Bool.and_eq_true_iff.mp hp with ⟨ha, hrest⟩
    right
    cases a with
    | log m lvl => exact ⟨he, hst, hrest⟩
    | update u =>
        simp only [postOK, Bool.and_eq_true, beq_iff_eq] at ha
        refine ⟨?_, ?_, hrest⟩
        · show (j.applyUpdates u).ended_at.isSome = true
          rw [applyUpdates_ended_at, ha.2]
          exact he
        · show isTerminalStr (j.applyUpdates u).status = true
          rw [applyUpdates_status, ha.1]
          exact hst

theorem reach_phase : ∀ {s t : Job × List StepAction}, Reach false s t →
    ((s.1.ended_at = none ∧ isTerminalStr s.1.status = false ∧ wholeTrace s.2 = true) ∨
      (s.1.ended_at.isSome = true ∧ isTerminalStr s.1.status = true ∧
        s.2.all postOK = true)) →
    ((t.1.ended_at = none ∧ isTerminalStr t.1.status = false) ∨
      (t.1.ended_at.isSome = true ∧ isTerminalStr t.1.status = true)) := by
  intro s t hr
  induction hr with
  | refl s =>
      intro h
      rcases h with ⟨h1, h2, _⟩ | ⟨h1, h2, _⟩
      · exact Or.inl ⟨h1, h2⟩
      · exact Or.inr ⟨h1, h2⟩
  | coord now a h ih => exact fun hph => ih (phase_step hph)
  | endJobStep now hs he h ih => exact absurd he (by simp)

theorem wholeTrace_append_pre (l1 l2 : List StepAction) (h1 : ∀ a ∈ l1, preOK a = true)
    (h2 : wholeTrace l2 = true) : wholeTrace (l1 ++ l2) = true := by
  induction l1 with
  | nil => exact h2
  | cons a rest ih =>
      have ha : preOK a = true := h1 a (List.mem_cons_self _ _)
      have hr := ih (fun x hx => h1 x (List.mem_cons_of_mem _ hx))
      show wholeTrace (a :: (rest ++ l2)) = true
      unfold wholeTrace
      rw [ha, hr]
      rfl

theorem stageStart_all_preOK (db : String) (lines : List String) :
    ∀ a ∈ stageStartActions db lines, preOK a = true := by
  intro a ha
  have e : stageStartActions db lines =
      [StepAction.update
        { status := some "running"
          current_step := some ("Starting " ++ db ++ " filter...")
          progress := some (progress_map db) }] ++
        ([StepAction.log ("--- Starting " ++ db.toUpper ++ " Filter ---") "info",
          StepAction.log ("Command: blast_filter.py " ++ db) "info"] ++
          (lines.filter (fun l => l != "")).map (fun l => StepAction.log l "info")) := rfl
  rw [e] at ha
  rcases List.mem_append.mp ha with h | h
  · simp only [List.mem_cons, List.not_mem_nil, or_false] at h
    subst h
    rfl
  · have hlog := stageStart_tail_all_log db lines a h
    cases a with
    | update u => exact absurd hlog (by simp [isLogAction])
    | log m lvl => rfl

theorem wholeTrace_runStages (env : String → StageEnv) (now : Nat) :
    ∀ (dbs : List String) (acc : List (String × String)),
      wholeTrace (runStagesActions env now dbs acc) = true := by
  intro dbs
  induction dbs with
  | nil => intro acc; rfl
  | cons db rest ih =>
      intro acc
      simp only [runStagesActions]
      apply wholeTrace_append_pre _ _ (stageStart_all_preOK db (env db).lines)
      by_cases hrc : ((env db).returncode != 0) = true
      · rw [if_pos hrc]
        rfl
      · rw [if_neg hrc]
        rcases hsr : (env db).step_results with _ | r
        · rfl
        · apply wholeTrace_append_pre
          · intro a ha
            simp only [List.mem_cons, List.not_mem_nil, or_false] at ha
            rcases ha with ha | ha <;> subst ha <;> rfl
          · exact ih (acc ++ [(db, r)])

theorem wholeTrace_run_step (db : String) (lines : List String) (size : Nat → Option Nat)
    (rc : Int) (res : Option String) (now : Nat) :
    wholeTrace (run_step_actions db lines size rc res now) = true := by
  unfold run_step_actions
  rw [List.append_assoc]
  apply wholeTrace_append_pre
  · intro a ha
    simp only [List.mem_cons, List.not_mem_nil, or_false] at ha
    rcases ha with ha | ha | ha <;> subst ha <;> rfl
  · apply wholeTrace_append_pre
    · exact fun a ha => pso_preOK (lineActions_pso size lines 0 false 0 a ha)
    · by_cases hb : (rc == 0) = true
      · rw [if_pos hb]
        rfl
      · rw [if_neg hb]
        rfl

/-- C8 counterexample: the claim's iff fails once another thread interferes.
Starting from the fresh full-pipeline job, five coordinator steps finish the
`human` stage; in that between-stages window `/api/end_job` fires (its guard
holds: the job is `running`), writing `failed` and `ended_at := 99`; the
pipeline thread — whose next action was already decided — then issues the
`deg` stage's `running` update (app.py lines 390-394), which does not clear
`ended_at`.  The state reached by this interleaving has status `running`
with `ended_at` set, so "endedAt is set iff the state is terminal at every
point of the lifecycle" is false on the code. -/
theorem C8_counterexample :
    Reach true (demoPipeJob, demoPipeTrace) (demoRaceJob, demoPipeTrace.drop 6) ∧
    demoRaceJob.status = "running" ∧ demoRaceJob.ended_at = some 99 := by
  refine ⟨?_, by decide, by decide⟩
  apply Reach.coord 0
  apply Reach.coord 0
  apply Reach.coord 0
  apply Reach.coord 0
  apply Reach.coord 0
  refine Reach.endJobStep 99 (Or.inl (by decide)) rfl ?_
  apply Reach.coord 0
  exact Reach.refl _

/-- C8 amended: a freshly created job is `queued` with `endedAt` unset; in
every reachable state of a coordinator run — even with concurrent `end_job`
interference — a terminal status implies `endedAt` is set; and along any
interference-free coordinator run (single-stage or full-pipeline) `endedAt`
is set exactly when the status is terminal.  The converse can be violated by
an `end_job` racing a multi-stage run (see the counterexample). -/
theorem C8_ended_iff_terminal (env : String → StageEnv) (now n0 : Nat)
    (jid jt proj : String) (db : String) (lines : List String)
    (size : Nat → Option Nat) (rc : Int) (res : Option String) (nowS : Nat) (b : Bool) :
    ((newJob jid jt proj n0).status = "queued" ∧ (newJob jid jt proj n0).ended_at = none) ∧
    (∀ t, Reach b (newJob jid jt proj n0, run_full_pipeline_actions env now) t →
      isTerminalStr t.1.status = true → t.1.ended_at.isSome = true) ∧
    (∀ t, Reach b (newJob jid jt proj n0, run_step_actions db lines size rc res nowS) t →
      isTerminalStr t.1.status = true → t.1.ended_at.isSome = true) ∧
    (∀ t, Reach false (newJob jid jt proj n0, run_full_pipeline_actions env now) t →
      (t.1.ended_at.isSome = true ↔ isTerminalStr t.1.status = true)) ∧
    (∀ t, Reach false (newJob jid jt proj n0, run_step_actions db lines size rc res nowS) t →
      (t.1.ended_at.isSome = true ↔ isTerminalStr t.1.status = true)) := by
  have hinit : isTerminalStr (newJob jid jt proj n0).status = true →
      (newJob jid jt proj n0).ended_at.isSome = true := by
    intro h
    have h2 : isTerminalStr "queued" = true := h
    exact absurd h2 (by decide)
  have hphase : ∀ (acts : List StepAction) (t : Job × List StepAction),
      wholeTrace acts = true → Reach false (newJob jid jt proj n0, acts) t →
      (t.1.ended_at.isSome = true ↔ isTerminalStr t.1.status = true) := by
    intro acts t hw hr
    have h := reach_phase hr
      (Or.inl ⟨rfl, (by decide : isTerminalStr "queued" = false), hw⟩)
    rcases h with ⟨h1, h2⟩ | ⟨h1, h2⟩
    · rw [h1, h2]
      simp
    · rw [h1, h2]
  refine ⟨⟨rfl, rfl⟩, ?_, ?_, ?_, ?_⟩
  · intro t hr
    exact reach_invA hr hinit
      (wholeTrace_all_actOK _ (wholeTrace_runStages env now databases []))
  · intro t hr
    exact reach_invA hr hinit
      (wholeTrace_all_actOK _ (wholeTrace_run_step db lines size rc res nowS))
  · intro t hr
    exact hphase _ t (wholeTrace_runStages env now databases []) hr
  · intro t hr
    exact hphase _ t (wholeTrace_run_step db lines size rc res nowS) hr

/-- Witness for C8 amended at a concrete input: the freshly created job
reached by the empty run satisfies the iff (both sides false), and is
`queued`. -/
theorem C8_witness :
    ((newJob "job_1" "human" "proj" 0).ended_at.isSome = true ↔
      isTerminalStr (newJob "job_1" "human" "proj" 0).status = true) ∧
    (newJob "job_1" "human" "proj" 0).status = "queued" := by
  have h := C8_ended_iff_terminal envAllOk 50 0 "job_1" "human" "proj" "human" []
    (fun _ => none) 0 (some "r") 9 false
  exact ⟨h.2.2.2.1 _ (Reach.refl _), rfl⟩

end DTDP
